import Mathlib

/-!
Verification of the KATANA Python SDK payload/path subsystem.

This file gives a shallow embedding of the path-addressable document model
(`katana/utils.py`, `katana/payload.py`), the wire decoder hooks
(`katana/serialization.py`), version resolution (`katana/versions.py`), the
run-time call merge-back (`katana/api/action.py`) and the dispatcher's
unknown-action branch (`katana/server.py`), together with proofs and
refutations of the specified properties.

Documents are modelled as a tree of values; Python dictionaries become
association lists that keep insertion order (updates keep the position of an
existing key, new keys are appended, exactly like a Python `dict`).  Python
exceptions become an explicit error type: `KeyError` and `TypeError` are the
only exception classes the embedded code distinguishes.
-/

namespace Katana

/-- A Python value as handled by the payload code: `None`, `bool`, `int`,
`str`, `list` and `dict` (string keys only, as in every payload). -/
inductive Val where
  | null
  | bool (b : Bool)
  | int (n : Int)
  | str (s : String)
  | list (xs : List Val)
  | map (kvs : List (String × Val))

mutual

/-- Structural equality of values (Python `==` on payload data). -/
def Val.beq : Val → Val → Bool
  | .null, .null => true
  | .bool a, .bool b => a == b
  | .int a, .int b => a == b
  | .str a, .str b => a == b
  | .list xs, .list ys => Val.beqList xs ys
  | .map xs, .map ys => Val.beqKvs xs ys
  | _, _ => false

/-- Elementwise equality of value lists. -/
def Val.beqList : List Val → List Val → Bool
  | [], [] => true
  | a :: as, b :: bs => Val.beq a b && Val.beqList as bs
  | _, _ => false

/-- Entrywise equality of association lists. -/
def Val.beqKvs : List (String × Val) → List (String × Val) → Bool
  | [], [] => true
  | (k, a) :: as, (l, b) :: bs => k == l && Val.beq a b && Val.beqKvs as bs
  | _, _ => false

end

instance : BEq Val := ⟨Val.beq⟩

/-- The Python exceptions distinguished by the embedded code. -/
inductive Err where
  | keyError
  | typeError
deriving Repr, DecidableEq

/-- Bind on a successful `Except` (definitional; stated for `simp`). -/
theorem exceptBindOk {ε α β : Type} (x : α) (f : α → Except ε β) :
    (Except.ok x >>= f) = f x := rfl

/-- Bind on a failed `Except` (definitional; stated for `simp`). -/
theorem exceptBindErr {ε α β : Type} (err : ε) (f : α → Except ε β) :
    ((Except.error err : Except ε α) >>= f) = Except.error err := rfl

/-- First-match lookup in an association list (Python `dict.__getitem__`). -/
def lookupKv : List (String × Val) → String → Option Val
  | [], _ => none
  | (k, v) :: rest, key => if k == key then some v else lookupKv rest key

/-- Python `key in dict`. -/
def hasKv (kvs : List (String × Val)) (key : String) : Bool :=
  (lookupKv kvs key).isSome

/-- Python `dict[key] = v`: replace in place when the key exists, append
otherwise (insertion order is preserved). -/
def setKv : List (String × Val) → String → Val → List (String × Val)
  | [], key, v => [(key, v)]
  | (k, w) :: rest, key, v =>
      if k == key then (k, v) :: rest else (k, w) :: setKv rest key v

/-- Python `del dict[key]` (the key is assumed unique, as in a real dict). -/
def eraseKv : List (String × Val) → String → List (String × Val)
  | [], _ => []
  | (k, w) :: rest, key =>
      if k == key then rest else (k, w) :: eraseKv rest key

/-- Field-name mapping tables (`FIELD_MAPPINGS` and friends). -/
abbrev Mappings := List (String × String)

/-- First-match lookup in a mapping table. -/
def lookupM : Mappings → String → Option String
  | [], _ => none
  | (k, v) :: rest, key => if k == key then some v else lookupM rest key

/-- Python `mappings.get(part, part)`. -/
def mget (mps : Mappings) (key : String) : String :=
  (lookupM mps key).getD key

/-- `sub` is a prefix of `s` (on character lists). -/
def isPrefixOfList : List Char → List Char → Bool
  | [], _ => true
  | _ :: _, [] => false
  | a :: as, b :: bs => a == b && isPrefixOfList as bs

/-- Substring test on character lists (Python `sub in s` for strings). -/
def listContainsSub (sub : List Char) : List Char → Bool
  | [] => isPrefixOfList sub []
  | c :: rest => isPrefixOfList sub (c :: rest) || listContainsSub sub rest

/-- Python `sub in s` for strings. -/
def strContains (s sub : String) : Bool :=
  listContainsSub sub.toList s.toList

/-- Python `s.split(d)` for a single-character delimiter, by structural
recursion over the characters.  Empty segments are produced exactly as in
Python: consecutive, leading and trailing delimiters yield empty strings,
and splitting the empty string yields `[""]`. -/
def splitChar (delim : Char) : List Char → List (List Char)
  | [] => [[]]
  | c :: rest =>
      if c == delim then [] :: splitChar delim rest
      else
        match splitChar delim rest with
        | [] => [[c]]
        | seg :: segs => (c :: seg) :: segs

/-- Python `s.split(d)` on strings. -/
def splitStr (delim : Char) (s : String) : List String :=
  (splitChar delim s.toList).map String.mk

/-- Python `part and part[0] == '!'`. -/
def isBang (part : String) : Bool :=
  match part.toList with
  | c :: _ => c == '!'
  | [] => false

/-- Python `part[1:]`. -/
def strTail (part : String) : String := String.mk (part.toList.drop 1)

/-- Python `s[:n]` (by code points, as Python slices by characters). -/
def strTake (s : String) (n : Nat) : String := String.mk (s.toList.take n)

/-- Python `key in value`: key test for dicts, membership for lists,
substring test for strings, `TypeError` for scalars. -/
def pyContains : Val → String → Except Err Bool
  | .map kvs, key => .ok (hasKv kvs key)
  | .list xs, key => .ok (xs.contains (.str key))
  | .str s, key => .ok (strContains s key)
  | _, _ => .error .typeError

/-- Python `value[key]` with a string key: dict lookup (`KeyError` when
missing), `TypeError` for every other value. -/
def pyGetItem : Val → String → Except Err Val
  | .map kvs, key =>
      match lookupKv kvs key with
      | some v => .ok v
      | none => .error .keyError
  | _, _ => .error .typeError

/-- Python `value[key] = v` with a string key. -/
def pySetItem : Val → String → Val → Except Err Val
  | .map kvs, key, v => .ok (.map (setKv kvs key v))
  | _, _, _ => .error .typeError

/-- Python truthiness of a value. -/
def pyTruthy : Val → Bool
  | .null => false
  | .bool b => b
  | .int n => n != 0
  | .str s => s != ""
  | .list xs => !xs.isEmpty
  | .map kvs => !kvs.isEmpty

/-!
Path traversal (`katana/utils.py`).

Paths are split on the delimiter exactly as Python `str.split` does
(`splitStr` above has the same semantics, including empty segments for
consecutive, leading or trailing delimiters).  The default delimiter `/` of
`utils.DELIMITER` is used throughout, matching every call site relevant to
the claims.
-/

/-- Per-segment name resolution of `get_path` and `delete_path`: a leading
`!` bypasses the mapping, otherwise the segment is looked up verbatim first
and translated only when absent from the current item (and a mapping table
is supplied).  The membership test can raise `TypeError` on scalars, exactly
like Python `name not in item`. -/
def resolveGet (mps : Mappings) (item : Val) (part : String) : Except Err String :=
  if isBang part then .ok (strTail part)
  else if mps.isEmpty then .ok part
  else do
    let c ← pyContains item part
    .ok (if c then part else mget mps part)

/-- The traversal loop of `utils.get_path` over already split segments. -/
def getParts (mps : Mappings) : Val → List String → Except Err Val
  | item, [] => .ok item
  | item, part :: rest => do
      let name ← resolveGet mps item part
      let next ← pyGetItem item name
      getParts mps next rest

/-- `utils.get_path`: `default = none` models the `EMPTY` sentinel (a miss
raises `KeyError`); `default = some d` returns `d` on `KeyError`.
`TypeError` always propagates. -/
def getPath (item : Val) (path : String) (default : Option Val)
    (mps : Mappings) : Except Err Val :=
  match getParts mps item (splitStr '/' path) with
  | .ok v => .ok v
  | .error .keyError =>
      match default with
      | some d => .ok d
      | none => .error .keyError
  | .error e => .error e

/-- Per-segment name resolution of `utils.set_path`: a leading `!` bypasses
the mapping, otherwise the mapped name is always used (when a mapping table
is supplied). -/
def resolveSet (mps : Mappings) (part : String) : String :=
  if isBang part then strTail part
  else if mps.isEmpty then part
  else mget mps part

/-- The loop of `utils.set_path` over already split segments, acting on the
entries of the root dictionary.  Intermediate dictionaries are created for
missing keys; an existing non-dictionary intermediate raises `TypeError`. -/
def setParts (mps : Mappings) :
    List (String × Val) → List String → Val → Except Err (List (String × Val))
  | kvs, [], _ => .ok kvs
  | kvs, [part], v => .ok (setKv kvs (resolveSet mps part) v)
  | kvs, part :: rest, v =>
      let name := resolveSet mps part
      match lookupKv kvs name with
      | none => do
          let inner ← setParts mps [] rest v
          .ok (setKv kvs name (.map inner))
      | some (.map m) => do
          let inner ← setParts mps m rest v
          .ok (setKv kvs name (.map inner))
      | some _ => .error .typeError

/-- `utils.set_path` on a document given by its entries. -/
def setPath (kvs : List (String × Val)) (path : String) (v : Val)
    (mps : Mappings) : Except Err (List (String × Val)) :=
  setParts mps kvs (splitStr '/' path) v

/-- `utils.delete_path`.  The boolean result is Python's return value; the
returned value is the (possibly) mutated document.  A missing key returns
`false` (the `KeyError` is caught); deleting through a non-dictionary raises
`TypeError` (uncaught in Python).  The recursion deletes intermediate
dictionaries that become empty. -/
def delParts (mps : Mappings) : Val → List String → Except Err (Bool × Val)
  | item, [] => .ok (true, item)
  | item, [part] => do
      let name ← resolveGet mps item part
      match item with
      | .map kvs =>
          if hasKv kvs name then .ok (true, .map (eraseKv kvs name))
          else .ok (false, item)
      | _ => .error .typeError
  | item, part :: rest => do
      let name ← resolveGet mps item part
      match item with
      | .map kvs =>
          match lookupKv kvs name with
          | none => .ok (false, item)
          | some inner => do
              let r ← delParts mps inner rest
              if r.fst then
                if pyTruthy r.snd then .ok (true, .map (setKv kvs name r.snd))
                else .ok (true, .map (eraseKv kvs name))
              else .ok (false, .map (setKv kvs name r.snd))
      | _ => .error .typeError

/-- `utils.delete_path` on a document value. -/
def delPath (item : Val) (path : String) (mps : Mappings) :
    Except Err (Bool × Val) :=
  delParts mps item (splitStr '/' path)

/-- Per-segment resolution of `LookupDict.push`: a leading `!` bypasses the
mapping, otherwise `self.__mappings.get(part, part)` is used directly. -/
def resolvePush (mps : Mappings) (part : String) : String :=
  if isBang part then strTail part else mget mps part

/-- The loop of `LookupDict.push`: traverse like `set_path`, then append to
the list at the final key (creating it when missing); a non-list final value
raises `TypeError`. -/
def pushParts (mps : Mappings) :
    List (String × Val) → List String → Val → Except Err (List (String × Val))
  | kvs, [], _ => .ok kvs
  | kvs, [part], v =>
      let name := resolvePush mps part
      match lookupKv kvs name with
      | none => .ok (setKv kvs name (.list [v]))
      | some (.list xs) => .ok (setKv kvs name (.list (xs ++ [v])))
      | some _ => .error .typeError
  | kvs, part :: rest, v =>
      let name := resolvePush mps part
      match lookupKv kvs name with
      | none => do
          let inner ← pushParts mps [] rest v
          .ok (setKv kvs name (.map inner))
      | some (.map m) => do
          let inner ← pushParts mps m rest v
          .ok (setKv kvs name (.map inner))
      | some _ => .error .typeError

/-- `LookupDict.push` on a document given by its entries. -/
def pushPath (kvs : List (String × Val)) (path : String) (v : Val)
    (mps : Mappings) : Except Err (List (String × Val)) :=
  pushParts mps kvs (splitStr '/' path) v

/-- Functional counterpart of mutating, through the reference returned by
`LookupDict.get`, the value sitting at a path: traverse with the resolution
rule of `get_path` and apply `f` to the value found, writing the result back
along the resolved keys.  This models Python's in-place mutation of the
aliased sub-dictionary. -/
def getUpdateParts (mps : Mappings) (f : Val → Except Err Val) :
    Val → List String → Except Err Val
  | item, [] => f item
  | item, part :: rest => do
      let name ← resolveGet mps item part
      let inner ← pyGetItem item name
      let inner' ← getUpdateParts mps f inner rest
      pySetItem item name inner'

/-!
Recursive dictionary merge (`utils.merge`) and `LookupDict.merge`.
-/

/-- `utils.merge(from_value, to_value, mappings, lists)`: iterate the entries
of the source in order and merge each into the destination.  Python mutates
`to_value` in place; here the updated destination is returned.  All the
membership tests and item accesses keep their Python exception behaviour. -/
def pyMerge (mps : Mappings) (lists : Bool) :
    List (String × Val) → Val → Except Err Val
  | [], toVal => .ok toVal
  | (key, value) :: rest, toVal => do
      let c1 ← pyContains toVal key
      let name := if !c1 && !mps.isEmpty then mget mps key else key
      let c2 ← pyContains toVal name
      if !c2 then
        let name2 := if name == key && !mps.isEmpty then mget mps name else name
        let toval1 ← pySetItem toVal name2 value
        pyMerge mps lists rest toval1
      else
        match value with
        | .map vkvs => do
            let inner ← pyGetItem toVal name
            let inner' ← pyMerge mps lists vkvs inner
            let toval1 ← pySetItem toVal name inner'
            pyMerge mps lists rest toval1
        | .list vxs =>
            if lists then do
              let cur ← pyGetItem toVal name
              match cur with
              | .list cxs => do
                  let toval1 ← pySetItem toVal name (.list (cxs ++ vxs))
                  pyMerge mps lists rest toval1
              | _ => pyMerge mps lists rest toVal
            else pyMerge mps lists rest toVal
        | _ => pyMerge mps lists rest toVal

/-- `LookupDict.merge(path, value)` with the defaults cleared (as
`Action.call` does before merging): raise `TypeError` unless `value` is a
dictionary; when the path resolves to a dictionary merge into it in place
(with list concatenation enabled); when the path misses with `KeyError`,
set a fresh dictionary at the path and merge into that; any other existing
value raises `TypeError`. -/
def ldMerge (data : List (String × Val)) (mps : Mappings) (path : String)
    (value : Val) : Except Err (List (String × Val)) :=
  match value with
  | .map vkvs =>
      match getParts mps (.map data) (splitStr '/' path) with
      | .ok (.map _) =>
          match getUpdateParts mps (pyMerge mps true vkvs) (.map data)
              (splitStr '/' path) with
          | .ok (.map r) => .ok r
          | .ok _ => .error .typeError
          | .error e => .error e
      | .ok _ => .error .typeError
      | .error .keyError => do
          let d1 ← setParts mps data (splitStr '/' path) (.map [])
          let inner ← pyMerge mps true vkvs (.map [])
          setParts mps d1 (splitStr '/' path) inner
      | .error e => .error e
  | _ => .error .typeError

/-!
The process-wide field-name table (`katana/payload.py`, `FIELD_MAPPINGS`),
transcribed in source order.
-/

/-- The long-name to short-code table of `katana.payload.FIELD_MAPPINGS`. -/
def FIELD_MAPPINGS : Mappings := [
  ("action", "a"),
  ("address", "a"),
  ("arguments", "a"),
  ("attributes", "a"),
  ("available", "a"),
  ("actions", "ac"),
  ("array_format", "af"),
  ("base_path", "b"),
  ("body", "b"),
  ("buffers", "b"),
  ("busy", "b"),
  ("cached", "c"),
  ("call", "c"),
  ("callback", "c"),
  ("callee", "c"),
  ("client", "c"),
  ("code", "c"),
  ("collection", "c"),
  ("command", "c"),
  ("commit", "c"),
  ("component", "c"),
  ("config", "c"),
  ("count", "c"),
  ("cpu", "c"),
  ("calls", "C"),
  ("complete", "C"),
  ("command_reply", "cr"),
  ("data", "d"),
  ("datetime", "d"),
  ("default_value", "d"),
  ("disk", "d"),
  ("path_delimiter", "d"),
  ("deprecated", "D"),
  ("allow_empty", "e"),
  ("entity_path", "e"),
  ("errors", "e"),
  ("entity", "E"),
  ("error", "E"),
  ("enum", "em"),
  ("exclusive_min", "en"),
  ("exclusive_max", "ex"),
  ("family", "f"),
  ("field", "f"),
  ("filename", "f"),
  ("files", "f"),
  ("format", "f"),
  ("free", "f"),
  ("fallback", "F"),
  ("fallbacks", "F"),
  ("fields", "F"),
  ("gateway", "g"),
  ("header", "h"),
  ("headers", "h"),
  ("http", "h"),
  ("http_body", "hb"),
  ("http_input", "hi"),
  ("http_method", "hm"),
  ("http_security", "hs"),
  ("id", "i"),
  ("idle", "i"),
  ("in", "i"),
  ("input", "i"),
  ("interval", "i"),
  ("items", "i"),
  ("primary_key", "k"),
  ("laddr", "l"),
  ("level", "l"),
  ("links", "l"),
  ("memory", "m"),
  ("message", "m"),
  ("meta", "m"),
  ("method", "m"),
  ("mime", "m"),
  ("min", "mn"),
  ("multiple_of", "mo"),
  ("max", "mx"),
  ("name", "n"),
  ("network", "n"),
  ("min_items", "ni"),
  ("min_length", "nl"),
  ("optional", "o"),
  ("origin", "o"),
  ("out", "o"),
  ("param", "p"),
  ("params", "p"),
  ("path", "p"),
  ("pattern", "p"),
  ("percent", "p"),
  ("pid", "p"),
  ("post_data", "p"),
  ("properties", "p"),
  ("protocol", "p"),
  ("query", "q"),
  ("raddr", "r"),
  ("reads", "r"),
  ("request", "r"),
  ("required", "r"),
  ("relations", "r"),
  ("result", "r"),
  ("rollback", "r"),
  ("remote_calls", "rc"),
  ("response", "R"),
  ("schema", "s"),
  ("schemes", "s"),
  ("scope", "s"),
  ("service", "s"),
  ("shared", "s"),
  ("size", "s"),
  ("status", "s"),
  ("swap", "s"),
  ("system", "s"),
  ("terminate", "t"),
  ("token", "t"),
  ("total", "t"),
  ("transactions", "t"),
  ("type", "t"),
  ("transport", "T"),
  ("url", "u"),
  ("used", "u"),
  ("user", "u"),
  ("unique_items", "ui"),
  ("value", "v"),
  ("version", "v"),
  ("validate", "V"),
  ("iowait", "w"),
  ("writes", "w"),
  ("timeout", "x"),
  ("max_items", "xi"),
  ("max_length", "xl"),
  ]

/-!
Run-time call merge-back (`katana/api/action.py`, `Action.call`).
-/

/-- Modelled from the spec: the constant `TRANSPORT_MERGEABLE_PATHS` is
imported in `katana/api/action.py` from `katana.payload`, but its definition
is not part of the sources; the spec fixes the allow-list of transport
sections merged back after an immediate call as data, relations, links,
calls, transactions and errors - and never meta. -/
def TRANSPORT_MERGEABLE_PATHS : List String :=
  ["data", "relations", "links", "calls", "transactions", "errors"]

/-- `katana.payload.get_path(transport, path, None)`: `utils.get_path` with
the global field mappings and a `None` default. -/
def payloadGetPath (payload : Val) (path : String) : Except Err Val :=
  getPath payload path (some .null) FIELD_MAPPINGS

/-- One iteration of the merge-back loop of `Action.call`: read the section
from the callee's resulting transport (with a `None` default), skip falsy
values, and merge truthy ones into the caller's transport with list
concatenation enabled. -/
def mergeStep (calleeT : Val) (acc : List (String × Val)) (p : String) :
    Except Err (List (String × Val)) := do
  let value ← payloadGetPath calleeT p
  if pyTruthy value then ldMerge acc FIELD_MAPPINGS p value else pure acc

/-- The merge-back loop at the end of `Action.call`, iterating `mergeStep`
over the mergeable paths.  The caller's defaults have just been cleared by
`set_defaults({})`. -/
def callMergeBack (calleeT : Val) (caller : List (String × Val)) :
    Except Err (List (String × Val)) :=
  TRANSPORT_MERGEABLE_PATHS.foldlM (mergeStep calleeT) caller

/-!
Wire decoder hook (`katana/serialization.py`, `decode`).

`decode` is installed as the msgpack `list_hook`, so it receives every
decoded list.  A 3-element list `['type', name, value]` is a tagged marker;
everything else is returned unchanged.  The stdlib parsers reached from the
marker branches are modelled exactly: `decimal.Decimal` by the pure-Python
parser of the 2.x stdlib (`value.strip()`, then the numeric-string regex
with infinities and NaN payloads, case-insensitively), and
`datetime.strptime` by the regex `_strptime` compiles for the fixed
formats - per-directive alternations accepting unpadded fields, matched
with backtracking and full consumption - followed by the `datetime`
constructor's range checks (which turn any `ValueError` into the bare
`except` branch, hence `None`).
-/

/-- The result of the `decode` hook: the raw list (fall-through), Python
`None`, a parsed `Decimal`/`datetime`/`date` (represented by the accepted
source string), or the verbatim value of a `time` marker. -/
inductive Decoded where
  | raw (xs : List Val)
  | null
  | decimal (s : String)
  | datetime (s : String)
  | date (s : String)
  | timeVal (v : Val)

/-- `'.'.join(x)` for the value kinds Python can iterate: a list of strings
joins its elements, a string joins its characters, a dict joins its keys in
iteration order (here the represented order of the association list, the
order the interpreter happens to iterate the hash table in); anything else
raises `TypeError` (which `decode` turns into `None`). -/
def joinDot : Val → Option String
  | .list xs =>
      let rec strs : List Val → Option (List String)
        | [] => some []
        | .str s :: rest => (strs rest).map (fun r => s :: r)
        | _ => none
      (strs xs).map (String.intercalate ".")
  | .str s => some (String.intercalate "." (s.toList.map (fun c => String.mk [c])))
  | .map kvs => some (String.intercalate "." (kvs.map Prod.fst))
  | _ => none

/-- Character-class helper: decimal digit. -/
def isDigitChar (c : Char) : Bool := c.isDigit

/-- Character-class helper: the whitespace stripped by `str.strip()`. -/
def isSpaceChar (c : Char) : Bool :=
  c == ' ' || c == '\t' || c == '\n' || c == '\r' || c == '\x0b' || c == '\x0c'

/-- `value.strip()`: drop leading and trailing whitespace. -/
def stripWs (cs : List Char) : List Char :=
  ((cs.dropWhile isSpaceChar).reverse.dropWhile isSpaceChar).reverse

/-- Validity of a string for the `decimal.Decimal` constructor (the
pure-Python parser of the 2.x stdlib): the constructor strips surrounding
whitespace, then the whole remainder must match, case-insensitively,
an optional sign followed by either a numeral - at least one digit
somewhere, an optional dot with a possibly empty fractional digit run, and
an optional `E` exponent with its own optional sign and at least one
digit - or `inf`/`infinity`, or `nan`/`snan` with an optional all-digit
diagnostic payload. -/
def isDecimalStr (s : String) : Bool :=
  let dropSign : List Char → List Char
    | '+' :: r => r
    | '-' :: r => r
    | r => r
  let cs := dropSign (stripWs s.toList)
  let lower := cs.map Char.toLower
  if lower == "inf".toList || lower == "infinity".toList then true
  else if (match lower with
      | 'n' :: 'a' :: 'n' :: r => r.all isDigitChar
      | 's' :: 'n' :: 'a' :: 'n' :: r => r.all isDigitChar
      | _ => false) then true
  else
    let intPart := cs.takeWhile isDigitChar
    let rest1 := cs.dropWhile isDigitChar
    let (fracPart, rest2) :=
      match rest1 with
      | '.' :: r => (r.takeWhile isDigitChar, r.dropWhile isDigitChar)
      | r => ([], r)
    let digitsOk := !intPart.isEmpty || !fracPart.isEmpty
    let expOk :=
      match rest2 with
      | [] => true
      | 'e' :: r => let r' := dropSign r; !r'.isEmpty && r'.all isDigitChar
      | 'E' :: r => let r' := dropSign r; !r'.isEmpty && r'.all isDigitChar
      | _ => false
    digitsOk && expOk

/-- Take exactly `n` digits from the front; return the digits' value and the
remaining characters, or fail. -/
def takeDigits (n : Nat) (cs : List Char) : Option (Nat × List Char) :=
  let ds := cs.take n
  if ds.length == n && ds.all isDigitChar then
    some (ds.foldl (fun a c => a * 10 + (c.toNat - 48)) 0, cs.drop n)
  else none

/-- Expect a literal character. -/
def expectChar (c : Char) : List Char → Option (List Char)
  | d :: rest => if d == c then some rest else none
  | [] => none

/-- Expect the literal `T` of the datetime format: `_strptime` compiles its
regex with `IGNORECASE`, so a lowercase `t` matches as well. -/
def expectT : List Char → Option (List Char)
  | d :: rest => if d == 'T' || d == 't' then some rest else none
  | [] => none

/-- Numeric value of a digit character. -/
def digitVal (c : Char) : Nat := c.toNat - 48

/-- The alternatives, in regex order, of the `%m` directive compiled by
`_strptime`: `1[0-2]|0[1-9]|[1-9]` - a single digit month needs no
padding.  Each entry is a captured month with the remaining characters. -/
def altMonth (cs : List Char) : List (Nat × List Char) :=
  (match cs with
    | '1' :: c :: r =>
        if '0' ≤ c && c ≤ '2' then [(10 + digitVal c, r)] else []
    | _ => []) ++
  (match cs with
    | '0' :: c :: r =>
        if '1' ≤ c && c ≤ '9' then [(digitVal c, r)] else []
    | _ => []) ++
  (match cs with
    | c :: r => if '1' ≤ c && c ≤ '9' then [(digitVal c, r)] else []
    | _ => [])

/-- The alternatives of the `%d` directive:
`3[01]|[12]\d|0[1-9]|[1-9]`. -/
def altDay (cs : List Char) : List (Nat × List Char) :=
  (match cs with
    | '3' :: c :: r =>
        if c == '0' || c == '1' then [(30 + digitVal c, r)] else []
    | _ => []) ++
  (match cs with
    | c1 :: c2 :: r =>
        if (c1 == '1' || c1 == '2') && isDigitChar c2 then
          [(10 * digitVal c1 + digitVal c2, r)]
        else []
    | _ => []) ++
  (match cs with
    | '0' :: c :: r =>
        if '1' ≤ c && c ≤ '9' then [(digitVal c, r)] else []
    | _ => []) ++
  (match cs with
    | c :: r => if '1' ≤ c && c ≤ '9' then [(digitVal c, r)] else []
    | _ => [])

/-- The alternatives of the `%H` directive: `2[0-3]|[0-1]\d|\d`. -/
def altHour (cs : List Char) : List (Nat × List Char) :=
  (match cs with
    | '2' :: c :: r =>
        if '0' ≤ c && c ≤ '3' then [(20 + digitVal c, r)] else []
    | _ => []) ++
  (match cs with
    | c1 :: c2 :: r =>
        if (c1 == '0' || c1 == '1') && isDigitChar c2 then
          [(10 * digitVal c1 + digitVal c2, r)]
        else []
    | _ => []) ++
  (match cs with
    | c :: r => if isDigitChar c then [(digitVal c, r)] else []
    | _ => [])

/-- The alternatives of the `%M` directive: `[0-5]\d|\d`. -/
def altMin (cs : List Char) : List (Nat × List Char) :=
  (match cs with
    | c1 :: c2 :: r =>
        if ('0' ≤ c1 && c1 ≤ '5') && isDigitChar c2 then
          [(10 * digitVal c1 + digitVal c2, r)]
        else []
    | _ => []) ++
  (match cs with
    | c :: r => if isDigitChar c then [(digitVal c, r)] else []
    | _ => [])

/-- The alternatives of the `%S` directive: `6[0-1]|[0-5]\d|\d` - the
regex itself admits the leap seconds 60 and 61. -/
def altSec (cs : List Char) : List (Nat × List Char) :=
  (match cs with
    | '6' :: c :: r =>
        if c == '0' || c == '1' then [(60 + digitVal c, r)] else []
    | _ => []) ++
  (match cs with
    | c1 :: c2 :: r =>
        if ('0' ≤ c1 && c1 ≤ '5') && isDigitChar c2 then
          [(10 * digitVal c1 + digitVal c2, r)]
        else []
    | _ => []) ++
  (match cs with
    | c :: r => if isDigitChar c then [(digitVal c, r)] else []
    | _ => [])

/-- The alternatives of the `%f` directive, `[0-9]{1,6}` greedy: the
longest digit prefix first, backtracking down to a single digit. -/
def altFrac (cs : List Char) : List (Nat × List Char) :=
  [6, 5, 4, 3, 2, 1].filterMap (fun n => takeDigits n cs)

/-- Ordered regex alternation with backtracking: the continuation is the
rest of the pattern; the first alternative whose continuation succeeds
determines the match, as in the `re` engine. -/
def firstSome {α : Type} :
    List (Nat × List Char) → (Nat → List Char → Option α) → Option α
  | [], _ => none
  | (v, r) :: rest, k =>
      match k v r with
      | some a => some a
      | none => firstSome rest k

/-- Match phase of `datetime.strptime(s, '%Y-%m-%d')`: the regex
`\d{4}-(1[0-2]|0[1-9]|[1-9])-(3[01]|[12]\d|0[1-9]|[1-9])` compiled by
`_strptime` (months and days accept unpadded single digits, the year is
exactly four digits), with the whole string consumed - leftover input is
the `unconverted data remains` `ValueError`.  Returns the captured year,
month and day of the first match. -/
def strptimeDate (s : String) : Option (Nat × Nat × Nat) :=
  match takeDigits 4 s.toList with
  | none => none
  | some (y, r1) =>
      match expectChar '-' r1 with
      | none => none
      | some r2 =>
          firstSome (altMonth r2) fun m r3 =>
            match expectChar '-' r3 with
            | none => none
            | some r4 =>
                firstSome (altDay r4) fun d r5 =>
                  if r5.isEmpty then some (y, m, d) else none

/-- Validity of a year-month-day triple for the `datetime` constructor:
the year at least `MINYEAR` (1) and the day within the month's length in
the proleptic Gregorian calendar.  (The regex already bounds the year by
9999 - four digits - the month by 12 and the day by 31.) -/
def dayOk (y m d : Nat) : Bool :=
  let leap := (y % 4 == 0 && y % 100 != 0) || y % 400 == 0
  let lim :=
    if m == 2 then (if leap then 29 else 28)
    else if m == 4 || m == 6 || m == 9 || m == 11 then 30
    else 31
  1 ≤ y && 1 ≤ m && m ≤ 12 && 1 ≤ d && d ≤ lim

/-- `datetime.strptime(s, '%Y-%m-%d')` succeeds: the `_strptime` regex
matches the whole string and the captured date passes the constructor's
calendar checks (otherwise the `ValueError` lands in the decoder's bare
`except`). -/
def matchesDateFmt (s : String) : Bool :=
  match strptimeDate s with
  | some (y, m, d) => dayOk y m d
  | none => false

/-- Match phase of `datetime.strptime` for the SDK's `DATE_FORMAT`
`'%Y-%m-%dT%H:%M:%S.%f+00:00'`: a date as above, the case-insensitive
literal `T`, hour `2[0-3]|[0-1]\d|\d`, minute `[0-5]\d|\d` and second
`6[0-1]|[0-5]\d|\d` separated by colons (unpadded single digits accepted,
leap seconds matched by the regex), a dot, a greedy 1-6 digit fraction and
the literal suffix `+00:00`, the whole string consumed.  Returns the
captures of the first match. -/
def strptimeDateTime (s : String) :
    Option (Nat × Nat × Nat × Nat × Nat × Nat) :=
  match takeDigits 4 s.toList with
  | none => none
  | some (y, r1) =>
      match expectChar '-' r1 with
      | none => none
      | some r2 =>
          firstSome (altMonth r2) fun m r3 =>
            match expectChar '-' r3 with
            | none => none
            | some r4 =>
                firstSome (altDay r4) fun d r5 =>
                  match expectT r5 with
                  | none => none
                  | some r6 =>
                      firstSome (altHour r6) fun hh r7 =>
                        match expectChar ':' r7 with
                        | none => none
                        | some r8 =>
                            firstSome (altMin r8) fun mm r9 =>
                              match expectChar ':' r9 with
                              | none => none
                              | some r10 =>
                                  firstSome (altSec r10) fun ss r11 =>
                                    match expectChar '.' r11 with
                                    | none => none
                                    | some r12 =>
                                        firstSome (altFrac r12) fun _ r13 =>
                                          if r13 == "+00:00".toList then
                                            some (y, m, d, hh, mm, ss)
                                          else none

/-- `datetime.strptime` succeeds on the SDK datetime format: the regex
matches the whole string and the captures pass the `datetime`
constructor's checks - year at least 1, a valid calendar day, and the
second at most 59 (the regex-matched leap seconds 60 and 61 are rejected
by the constructor; hours and minutes are already bounded by their
character classes). -/
def matchesDateTimeFmt (s : String) : Bool :=
  match strptimeDateTime s with
  | some (y, m, d, _, _, ss) => dayOk y m d && ss ≤ 59
  | none => false

/-- `serialization.decode`: unpack a tagged 3-element marker.  A failing
parse inside a known marker type yields `None` (the bare `except` branch);
the `datetime` branch also yields `None` for falsy values because
`str_to_date` returns `None` for them; a `time` marker returns its value
verbatim; any other list - including markers with an unknown type name - is
returned unchanged. -/
def decode (data : List Val) : Decoded :=
  match data with
  | [t0, t1, t2] =>
      if t0 == Val.str "type" then
        if t1 == Val.str "decimal" then
          match joinDot t2 with
          | some s => if isDecimalStr s then .decimal s else .null
          | none => .null
        else if t1 == Val.str "datetime" then
          match t2 with
          | .str s => if s != "" && matchesDateTimeFmt s then .datetime s else .null
          | _ => .null
        else if t1 == Val.str "date" then
          match t2 with
          | .str s => if matchesDateFmt s then .date s else .null
          | _ => .null
        else if t1 == Val.str "time" then .timeVal t2
        else .raw [t0, t1, t2]
      else .raw [t0, t1, t2]
  | other => .raw other

/-!
Version resolution (`katana/versions.py`).
-/

/-- Python membership of a character in a string. -/
def strHasChar (s : String) (c : Char) : Bool := s.toList.contains c

/-- One step of the `(\*)\1+` regex substitution: collapse every run of
consecutive `*` to a single `*`.  The flag records whether the previously
emitted character was a `*`. -/
def collapseGo : Bool → List Char → List Char
  | _, [] => []
  | prevStar, c :: rest =>
      if c == '*' then
        if prevStar then collapseGo true rest
        else '*' :: collapseGo true rest
      else c :: collapseGo false rest

/-- `DUPLICATES.sub(r'\1', pattern)`: remove duplicated `*` in a pattern. -/
def collapseStars (s : String) : String := String.mk (collapseGo false s.toList)

/-- Python `s.split('.', 1)`: the first component and the remainder (when a
dot is present). -/
def split1 (s : String) : String × Option String :=
  match splitStr '.' s with
  | [] => (s, none)
  | [x] => (x, none)
  | x :: rest => (x, some (String.intercalate "." rest))

/-- `VersionParser`: the original value plus the parsing state after
`parse_next` (current part and remaining suffix). -/
structure VParser where
  value : String
  part : String
  suffix : Option String
deriving Repr, DecidableEq

/-- Construct a `VersionParser` (the constructor calls `parse_next` once). -/
def mkVParser (v : String) : VParser :=
  let q := split1 v
  { value := v, part := q.1, suffix := q.2 }

/-- `VersionParser.parse_next` (callers only invoke it when the suffix is a
non-empty string; the `none` case is unreachable there). -/
def VParser.parseNext (p : VParser) : VParser :=
  match p.suffix with
  | none => p
  | some s => let q := split1 s; { p with part := q.1, suffix := q.2 }

/-- `len(suffix) if suffix else 0`. -/
def VParser.suffixLen (p : VParser) : Nat :=
  (p.suffix.map String.length).getD 0

/-- Python truthiness of an optional string suffix. -/
def suffixTruthy : Option String → Bool
  | some s => s != ""
  | none => false

/-- `'{}.{}'.format(part, suffix)` (a `None` suffix prints as `None`). -/
def VParser.currentValue (p : VParser) : String :=
  p.part ++ "." ++ (match p.suffix with | some s => s | none => "None")

/-- `VersionPattern`: the collapsed pattern value, the parsing state, and
the `static`/`latest_version` flags computed by the constructor. -/
structure VPattern where
  value : String
  part : String
  suffix : Option String
  static : Bool
  latest : Bool
deriving Repr, DecidableEq

/-- The `VersionPattern` constructor. -/
def mkVPattern (raw : String) : VPattern :=
  let pat := collapseStars raw
  if strHasChar pat '*' then
    let q := split1 pat
    { value := pat, part := q.1, suffix := q.2, static := false,
      latest := pat == "*" }
  else
    { value := pat, part := "", suffix := none, static := true,
      latest := false }

/-- `VersionPattern.parse_next`. -/
def VPattern.parseNext (p : VPattern) : VPattern :=
  match p.suffix with
  | none => p
  | some s => let q := split1 s; { p with part := q.1, suffix := q.2 }

/-- `len(suffix) if suffix else 0`. -/
def VPattern.suffixLen (p : VPattern) : Nat :=
  (p.suffix.map String.length).getD 0

/-- `pattern.highest`: the current part is a wildcard. -/
def VPattern.highest (p : VPattern) : Bool := p.part == "*"

/-- The failures `find_version` can produce: `VersionNotFound`, the
`IndexError` of `versions[-1]` on an empty list, and exhaustion of the
recursion fuel (never reached when the fuel exceeds the number of pattern
parts, since each recursive call consumes one pattern part). -/
inductive VFail where
  | notFound (pat : String)
  | indexErr
  | fuelOut
deriving Repr, DecidableEq

/-- `versions.find_version(pattern, versions)`.  The structure follows the
source: static patterns are returned verbatim; `*` returns the last list
element; an empty list raises `VersionNotFound` for other patterns; then the
version for the current pattern part is selected (highest-first for a `*`
part, first structural match otherwise), and the suffix is either appended
directly or resolved recursively after filtering by the current prefix. -/
def findVersion : Nat → VPattern → List VParser → Except VFail String
  | 0, _, _ => .error .fuelOut
  | fuel + 1, pat, versions =>
    if pat.static then .ok pat.value
    else if pat.latest then
      match versions.getLast? with
      | some v => .ok v.value
      | none => .error .indexErr
    else if versions.isEmpty then .error (.notFound pat.value)
    else
      let cur :=
        if pat.highest then
          versions.reverse.find? (fun v => pat.suffixLen == v.suffixLen)
        else
          versions.find? (fun v =>
            pat.suffixLen == v.suffixLen && pat.part == v.part)
      match cur with
      | none => .error (.notFound pat.value)
      | some cv =>
          if !(suffixTruthy pat.suffix) then .ok cv.part
          else
            let ps := pat.suffix.getD ""
            if !(strHasChar ps '*') then .ok (cv.part ++ "." ++ ps)
            else
              let pfx := cv.part ++ "."
              let kept := (versions.filter (fun v =>
                suffixTruthy v.suffix
                  && strTake v.currentValue pfx.length == pfx)).map VParser.parseNext
              match findVersion fuel pat.parseNext kept with
              | .ok rest => .ok (pfx ++ rest)
              | .error e => .error e

/-- Strict comparison of character lists by code point, as Python compares
strings. -/
def charListLt : List Char → List Char → Bool
  | [], [] => false
  | [], _ :: _ => true
  | _ :: _, [] => false
  | a :: as, b :: bs =>
      if a == b then charListLt as bs else decide (a.toNat < b.toNat)

/-- Python `a < b` on strings (lexicographic by code point). -/
def strLtB (a b : String) : Bool := charListLt a.toList b.toList

/-- Lexicographic comparison of dot-split versions, as Python compares
lists of strings. -/
def lexLe : List String → List String → Bool
  | [], _ => true
  | _ :: _, [] => false
  | a :: as, b :: bs => if a == b then lexLe as bs else strLtB a b

/-- Stable insertion into a `lexLe`-sorted list. -/
def insertSorted (x : List String) : List (List String) → List (List String)
  | [] => [x]
  | y :: ys => if lexLe x y then x :: y :: ys else y :: insertSorted x ys

/-- Insertion sort by `lexLe` (Python `sorted`; stability is irrelevant here
because equal keys are equal lists). -/
def sortLex : List (List String) → List (List String)
  | [] => []
  | x :: xs => insertSorted x (sortLex xs)

/-- `versions.sort_versions`: split on dots, sort the part lists, join. -/
def sortVersions (versions : List String) : List String :=
  (sortLex (versions.map (fun v => splitStr '.' v))).map
    (String.intercalate ".")

/-- Version resolution over plain strings: sort the candidates, wrap them in
parsers, and run `find_version` on the pattern. -/
def resolveVersion (fuel : Nat) (pat : String) (versions : List String) :
    Except VFail String :=
  findVersion fuel (mkVPattern pat) ((sortVersions versions).map mkVParser)

/-!
The dispatcher's unknown-action branch (`katana/server.py`).
-/

/-- `ComponentServer.component_title`: `'"{}" ({})'.format(name, version)`. -/
def componentTitle (name version : String) : String :=
  "\"" ++ name ++ "\" (" ++ version ++ ")"

/-- The message built by `__process_request_stream` for an unregistered
action: `'Invalid action for component {}: "{}"'.format(title, action)`. -/
def invalidActionMessage (name version action : String) : String :=
  "Invalid action for component " ++ componentTitle name version
    ++ ": \"" ++ action ++ "\""

/-- The `EMPTY_META` response frame, a single zero byte. -/
def EMPTY_META : List Nat := [0]

/-- `ErrorPayload.new(message).entity()` built through the payload setters:
a payload with the message under its mapped key, namespaced under the
mapped `error` key. -/
def errorEntity (message : String) : Except Err Val := do
  let e ← setPath [] "message" (.str message) FIELD_MAPPINGS
  let r ← setPath [] "error" (.map e) FIELD_MAPPINGS
  pure (.map r)

/-- `create_error_response(message)`: the empty meta byte plus the packed
error entity (kept here as the unpacked document). -/
def createErrorResponse (message : String) : List Nat × Except Err Val :=
  (EMPTY_META, errorEntity message)

/-- The action-dispatch decision of `__process_request_stream`: when the
requested action is not a key of the registered callbacks the error response
is returned directly; otherwise the request is handed to the rest of the
pipeline, abstracted by `proc`. -/
def processRequestStream (callbacks : List String)
    (name version action : String) (proc : String → Val → List Nat × Val)
    (stream : Val) : List Nat × Except Err Val :=
  if !(callbacks.contains action) then
    createErrorResponse (invalidActionMessage name version action)
  else
    let r := proc action stream
    (r.1, .ok r.2)

/-!
Basic lemmas about the dictionary operations.
-/

theorem lookupKv_setKv_self (kvs : List (String × Val)) (k : String) (v : Val) :
    lookupKv (setKv kvs k v) k = some v := by
  induction kvs with
  | nil => simp [setKv, lookupKv]
  | cons hd t ih =>
      obtain ⟨k', v'⟩ := hd
      by_cases hk : k' = k
      · simp [setKv, lookupKv, hk]
      · simp [setKv, lookupKv, hk, ih]

theorem lookupKv_setKv_ne (kvs : List (String × Val)) (k k' : String) (v : Val)
    (h : k' ≠ k) : lookupKv (setKv kvs k v) k' = lookupKv kvs k' := by
  have h' : k ≠ k' := Ne.symm h
  induction kvs with
  | nil => simp [setKv, lookupKv, h']
  | cons hd t ih =>
      obtain ⟨k0, v0⟩ := hd
      by_cases hk : k0 = k
      · subst hk
        simp [setKv, lookupKv, h']
      · by_cases hk' : k0 = k'
        · simp [setKv, lookupKv, hk, hk', h, h']
        · simp [setKv, lookupKv, hk, hk', ih]

theorem lookupKv_eraseKv_ne (kvs : List (String × Val)) (k k' : String)
    (h : k' ≠ k) : lookupKv (eraseKv kvs k) k' = lookupKv kvs k' := by
  induction kvs with
  | nil => simp [eraseKv]
  | cons hd t ih =>
      obtain ⟨k0, v0⟩ := hd
      by_cases hk : k0 = k
      · subst hk
        simp [eraseKv, lookupKv, Ne.symm h]
      · by_cases hk' : k0 = k'
        · simp [eraseKv, lookupKv, hk, hk', h, Ne.symm h]
        · simp [eraseKv, lookupKv, hk, hk', ih]

theorem setKv_lookup_eq (kvs : List (String × Val)) (k : String) (v : Val)
    (h : lookupKv kvs k = some v) : setKv kvs k v = kvs := by
  induction kvs with
  | nil => simp [lookupKv] at h
  | cons hd t ih =>
      obtain ⟨k0, v0⟩ := hd
      by_cases hk : k0 = k
      · subst hk
        simp only [lookupKv, if_pos (beq_self_eq_true k0), Option.some.injEq] at h
        simp [setKv, h]
      · simp [lookupKv, hk] at h
        simp [setKv, hk, ih h]

theorem setKv_setKv (kvs : List (String × Val)) (k : String) (a b : Val) :
    setKv (setKv kvs k a) k b = setKv kvs k b := by
  induction kvs with
  | nil => simp [setKv]
  | cons hd t ih =>
      obtain ⟨k0, v0⟩ := hd
      by_cases hk : k0 = k
      · simp [setKv, hk]
      · simp [setKv, hk, ih]

theorem lookupKv_eq_none_of_not_mem (kvs : List (String × Val)) (k : String)
    (h : k ∉ kvs.map Prod.fst) : lookupKv kvs k = none := by
  induction kvs with
  | nil => simp [lookupKv]
  | cons hd t ih =>
      obtain ⟨k0, v0⟩ := hd
      simp only [List.map_cons, List.mem_cons, not_or] at h
      simp [lookupKv, Ne.symm h.1, ih h.2]

/-- Pairwise distinctness of a key list (Python dictionaries cannot hold a
key twice). -/
def allDistinct : List String → Bool
  | [] => true
  | x :: xs => !xs.contains x && allDistinct xs

theorem lookupKv_eraseKv_self (kvs : List (String × Val)) (k : String)
    (h : allDistinct (kvs.map Prod.fst) = true) :
    lookupKv (eraseKv kvs k) k = none := by
  induction kvs with
  | nil => simp [eraseKv, lookupKv]
  | cons hd t ih =>
      obtain ⟨k0, v0⟩ := hd
      simp only [List.map_cons, allDistinct, Bool.and_eq_true,
        Bool.not_eq_true'] at h
      by_cases hk : k0 = k
      · subst hk
        simp only [eraseKv, if_pos (beq_self_eq_true k0)]
        exact lookupKv_eq_none_of_not_mem t k0 (by simpa using h.1)
      · simp [eraseKv, lookupKv, hk, ih h.2]

/-!
C9.  The field-name table's short codes.
-/

/-- C9 counterexample: the claim that no two distinct long field names map
to the same short code fails already on the first two entries of
`FIELD_MAPPINGS`: both "action" and "address" map to "a". -/
theorem c9_counterexample :
    lookupM FIELD_MAPPINGS "action" = some "a"
      ∧ lookupM FIELD_MAPPINGS "address" = some "a"
      ∧ "action" ≠ "address" := by
  refine ⟨rfl, by decide, by decide⟩

/-- C9 (amended): in the process-wide field-name mapping table short codes
are not unique: there are distinct long field names that map to the same
short code (for example "action" and "address" both map to "a"). -/
theorem c9_short_codes_shared :
    ∃ n1 n2 c, n1 ≠ n2 ∧ lookupM FIELD_MAPPINGS n1 = some c
      ∧ lookupM FIELD_MAPPINGS n2 = some c := by
  exact ⟨"action", "address", "a", by decide, rfl, by decide⟩

/-!
C7.  The dispatcher's response to an unregistered action.
-/

/-- Strings with equal character data are equal. -/
theorem stringDataEq (s t : String) (h : s.data = t.data) : s = t := by
  cases s
  cases t
  exact congrArg String.mk h

/-- Unfolding append to character data (definitional). -/
theorem stringAppendData (s t : String) : (s ++ t).data = s.data ++ t.data := rfl

/-- C7 counterexample: the message produced for an unregistered action does
not quote the version.  For component name `users`, version `1.0` and action
`foo` the dispatcher formats `Invalid action for component "users" (1.0):
"foo"`, not the claimed `Invalid action for component "users" ("1.0"):
"foo"`. -/
theorem c7_counterexample :
    invalidActionMessage "users" "1.0" "foo"
        = "Invalid action for component \"users\" (1.0): \"foo\""
      ∧ invalidActionMessage "users" "1.0" "foo"
        ≠ "Invalid action for component \"users\" (\"1.0\"): \"foo\"" :=
  ⟨by decide, by decide⟩

/-- C7 (amended): when the dispatcher receives a frame whose action name is
not in the registered handler table, it produces an error response without
invoking any handler (the response does not depend on the processing
pipeline), the response's meta frame is the single empty-meta byte, and the
error message is exactly of the form `Invalid action for component "<name>"
(<version>): "<action>"` - the version is enclosed in bare parentheses, not
additionally quoted. -/
theorem c7_unknown_action (callbacks : List String)
    (name version action : String) (proc : String → Val → List Nat × Val)
    (stream : Val) (h : callbacks.contains action = false) :
    processRequestStream callbacks name version action proc stream
        = (EMPTY_META, .ok (.map [("E",
            .map [("m", .str (invalidActionMessage name version action))])]))
      ∧ (∀ (proc' : String → Val → List Nat × Val) (stream' : Val),
          processRequestStream callbacks name version action proc' stream'
            = processRequestStream callbacks name version action proc stream)
      ∧ invalidActionMessage name version action
        = "Invalid action for component \"" ++ name ++ "\" (" ++ version
            ++ "): \"" ++ action ++ "\"" := by
  have he : ∀ m : String,
      errorEntity m = .ok (.map [("E", .map [("m", .str m)])]) := fun _ => rfl
  have h' : action ∉ callbacks := by simpa using h
  refine ⟨?_, ?_, ?_⟩
  · simp [processRequestStream, h', createErrorResponse, he]
  · intro proc' stream'
    simp [processRequestStream, h']
  · apply stringDataEq
    simp only [invalidActionMessage, componentTitle, stringAppendData,
      List.append_assoc]
    rfl

/-- Witness for C7: a concrete dispatch of the unregistered action `foo`
against a component whose only callback is `bar`. -/
theorem c7_unknown_action_witness :
    (["bar"] : List String).contains "foo" = false
      ∧ processRequestStream ["bar"] "users" "1.0" "foo"
          (fun _ _ => ([], .null)) .null
        = (EMPTY_META, .ok (.map [("E",
            .map [("m", .str (invalidActionMessage "users" "1.0" "foo"))])])) :=
  ⟨by decide,
    (c7_unknown_action ["bar"] "users" "1.0" "foo" (fun _ _ => ([], .null))
      .null (by decide)).1⟩

/-!
C4.  Decoding of tagged markers.
-/

/-- Equality checks between literal string values reduce to string
equality. -/
theorem valBeqStr (a b : String) : (Val.str a == Val.str b) = (a == b) := rfl

/-- The `%m`/`%d` directives accept unpadded single digits, so this
unpadded date parses (to `datetime(2020, 1, 1)`). -/
theorem dateFmt_accepts_unpadded : matchesDateFmt "2020-1-1" = true := by
  decide

/-- Year 0 matches the four-digit `%Y` regex but is below `MINYEAR`, so the
constructor raises and the parse fails. -/
theorem dateFmt_rejects_year_zero : matchesDateFmt "0000-01-01" = false := by
  decide

/-- February 30 matches the `%d` regex but fails the constructor's
calendar check. -/
theorem dateFmt_rejects_feb30 : matchesDateFmt "2020-02-30" = false := by
  decide

/-- Unpadded month, day, hour, minute and second all parse under the SDK
datetime format. -/
theorem dateTimeFmt_accepts_unpadded :
    matchesDateTimeFmt "2020-1-1T3:5:7.5+00:00" = true := by decide

/-- A leap second matches the `%S` regex but is rejected by the `datetime`
constructor. -/
theorem dateTimeFmt_rejects_leap_second :
    matchesDateTimeFmt "2020-01-01T00:00:60.0+00:00" = false := by decide

/-- `decimal.Decimal` accepts a NaN with a digit diagnostic payload. -/
theorem decimalStr_nan_payload : isDecimalStr "nan1" = true := by decide

/-- `decimal.Decimal` strips surrounding whitespace before parsing. -/
theorem decimalStr_whitespace : isDecimalStr " 1.5 " = true := by decide

/-- C4 counterexample: a 3-element tagged marker whose type name is unknown
(here "foo") is returned unchanged by the decoder - it is not decoded to a
null value as the claim states. -/
theorem c4_counterexample :
    decode [.str "type", .str "foo", .int 1]
        = .raw [.str "type", .str "foo", .int 1]
      ∧ decode [.str "type", .str "foo", .int 1] ≠ .null :=
  ⟨rfl, fun h => Decoded.noConfusion h⟩

/-- C4 (amended): decoding a 3-element tagged marker never raises, but the
outcome depends on the type name: an unknown type name returns the marker
list unchanged; a malformed value for the declared types decimal, datetime
or date decodes to null; a time marker returns its value verbatim without
validation. -/
theorem c4_decode_behaviour :
    (∀ t1 t2 : Val, (t1 == Val.str "decimal") = false
        → (t1 == Val.str "datetime") = false
        → (t1 == Val.str "date") = false
        → (t1 == Val.str "time") = false
        → decode [.str "type", t1, t2] = .raw [.str "type", t1, t2])
      ∧ (∀ t2 : Val, (∀ s, joinDot t2 = some s → isDecimalStr s = false)
        → decode [.str "type", .str "decimal", t2] = .null)
      ∧ (∀ t2 : Val, (∀ s, t2 = .str s → matchesDateTimeFmt s = false)
        → decode [.str "type", .str "datetime", t2] = .null)
      ∧ (∀ t2 : Val, (∀ s, t2 = .str s → matchesDateFmt s = false)
        → decode [.str "type", .str "date", t2] = .null)
      ∧ (∀ t2 : Val, decode [.str "type", .str "time", t2] = .timeVal t2) := by
  refine ⟨?_, ?_, ?_, ?_, ?_⟩
  · intro t1 t2 h1 h2 h3 h4
    simp [decode, h1, h2, h3, h4]
  · intro t2 hj
    cases hjd : joinDot t2 with
    | none => simp [decode, hjd, valBeqStr]
    | some s => simp [decode, hjd, hj s hjd, valBeqStr]
  · intro t2 hf
    cases t2 <;> simp [decode, valBeqStr]
    case str s => simp [hf s rfl]
  · intro t2 hf
    cases t2 <;> simp [decode, valBeqStr]
    case str s => simp [hf s rfl]
  · intro t2
    simp [decode, valBeqStr]

/-- Witness for C4: concrete evaluations of each behaviour - an unknown
marker type, a decimal marker with a non-joinable value, a datetime marker
with an integer value, a date marker with a malformed string, and a time
marker with a non-string value. -/
theorem c4_decode_behaviour_witness :
    decode [.str "type", .str "foo2", .int 1]
        = .raw [.str "type", .str "foo2", .int 1]
      ∧ decode [.str "type", .str "decimal", .int 3] = .null
      ∧ decode [.str "type", .str "datetime", .int 3] = .null
      ∧ decode [.str "type", .str "date", .str "20-1-1"] = .null
      ∧ decode [.str "type", .str "time", .bool true] = .timeVal (.bool true) :=
  ⟨c4_decode_behaviour.1 (.str "foo2") (.int 1) (by decide) (by decide)
      (by decide) (by decide),
    c4_decode_behaviour.2.1 (.int 3)
      (fun s hs => by simp [joinDot] at hs),
    c4_decode_behaviour.2.2.1 (.int 3)
      (fun s hs => by exact absurd hs (fun h => Val.noConfusion h)),
    c4_decode_behaviour.2.2.2.1 (.str "20-1-1")
      (fun s hs => by
        have : s = "20-1-1" := (Val.str.inj hs).symm
        subst this
        decide),
    c4_decode_behaviour.2.2.2.2 (.bool true)⟩

/-!
C8.  Empty path segments and the `!` escape.
-/

/-- Rebuilding a string from its characters. -/
theorem strMkToList (s : String) : String.mk s.toList = s := by
  cases s
  rfl

/-- C8 counterexample: empty path segments are not skipped.  Setting
`a//b` on an empty document creates a real entry under the empty-string
key, and a subsequent get of `a/b` (the path with the empty segment
dropped, as the claimed skipping would produce) misses with `KeyError`,
while `a//b` finds the value. -/
theorem c8_counterexample :
    setPath [] "a//b" (.int 1) []
        = .ok [("a", .map [("", .map [("b", .int 1)])])]
      ∧ getPath (.map [("a", .map [("", .map [("b", .int 1)])])]) "a/b"
          none [] = .error .keyError
      ∧ getPath (.map [("a", .map [("", .map [("b", .int 1)])])]) "a//b"
          none [] = .ok (.int 1) :=
  ⟨rfl, rfl, rfl⟩

/-- C8 (amended): empty path segments are not skipped - they resolve to the
empty-string key (when `""` itself has no mapping entry) in the resolution
rules shared by get, set, delete and push; a single leading `!` disables
name translation for that segment only, every other segment of the same
path still being translated (witnessed by the final sample, whose first
segment stays verbatim while the second is mapped). -/
theorem c8_segment_resolution :
    (∀ (mps : Mappings) (kvs : List (String × Val)),
        lookupM mps "" = none → resolveGet mps (.map kvs) "" = .ok "")
      ∧ (∀ mps : Mappings, lookupM mps "" = none → resolveSet mps "" = "")
      ∧ (∀ mps : Mappings, lookupM mps "" = none → resolvePush mps "" = "")
      ∧ (∀ (mps : Mappings) (item : Val) (s : String),
          resolveGet mps item ("!" ++ s) = .ok s)
      ∧ (∀ (mps : Mappings) (s : String), resolveSet mps ("!" ++ s) = s)
      ∧ (∀ (mps : Mappings) (s : String), resolvePush mps ("!" ++ s) = s)
      ∧ (∀ v : Val, setPath [] "!foo/bar" v [("foo", "f"), ("bar", "b")]
          = .ok [("foo", .map [("b", v)])]) := by
  have hbang : ∀ s : String, isBang ("!" ++ s) = true := fun _ => rfl
  have htail : ∀ s : String, strTail ("!" ++ s) = s := by
    intro s
    have : ("!" ++ s).toList = '!' :: s.toList := rfl
    simp [strTail, this, strMkToList]
  have hnotbang : isBang "" = false := rfl
  refine ⟨?_, ?_, ?_, ?_, ?_, ?_, ?_⟩
  · intro mps kvs h
    by_cases hm : mps.isEmpty
    · simp [resolveGet, hnotbang, hm]
    · simp [resolveGet, hnotbang, hm, pyContains, mget, h]
      rfl
  · intro mps h
    by_cases hm : mps.isEmpty
    · simp [resolveSet, hnotbang, hm]
    · simp [resolveSet, hnotbang, hm, mget, h]
  · intro mps h
    simp [resolvePush, hnotbang, mget, h]
  · intro mps item s
    simp [resolveGet, hbang, htail]
  · intro mps s
    simp [resolveSet, hbang, htail]
  · intro mps s
    simp [resolvePush, hbang, htail]
  · intro v
    rfl

/-- Witness for C8: the resolution facts instantiated at the global field
mappings (which map neither `""` nor the sample names). -/
theorem c8_segment_resolution_witness :
    lookupM FIELD_MAPPINGS "" = none
      ∧ resolveGet FIELD_MAPPINGS (.map []) "" = .ok ""
      ∧ resolveSet FIELD_MAPPINGS "" = ""
      ∧ resolveGet FIELD_MAPPINGS (.map []) ("!" ++ "data") = .ok "data"
      ∧ setPath [] "!foo/bar" (.int 7) [("foo", "f"), ("bar", "b")]
          = .ok [("foo", .map [("b", .int 7)])] :=
  ⟨by decide,
    c8_segment_resolution.1 FIELD_MAPPINGS [] (by decide),
    c8_segment_resolution.2.1 FIELD_MAPPINGS (by decide),
    c8_segment_resolution.2.2.2.1 FIELD_MAPPINGS (.map []) "data",
    c8_segment_resolution.2.2.2.2.2.2 (.int 7)⟩

/-!
C6.  Deleting a missing path.
-/

/-- `resolveGet` can only fail with `TypeError`. -/
theorem resolveGet_error (mps : Mappings) (item : Val) (part : String)
    (e : Err) (h : resolveGet mps item part = .error e) : e = .typeError := by
  unfold resolveGet at h
  by_cases hb : isBang part
  · simp [hb] at h
  · by_cases he : mps.isEmpty
    · simp [hb, he] at h
    · cases item <;> simp [hb, he, pyContains, exceptBindOk, exceptBindErr] at h <;> simp_all

/-- Traversing one or more segments into a non-dictionary value never fails
with `KeyError` (it raises `TypeError` instead). -/
theorem getParts_cons_nonmap (mps : Mappings) (item : Val) (r : String)
    (rs : List String) (hnm : ∀ kv, item ≠ Val.map kv) :
    getParts mps item (r :: rs) ≠ .error .keyError := by
  cases item with
  | map kv => exact absurd rfl (hnm kv)
  | null =>
      by_cases hb : isBang r
      · simp [getParts, resolveGet, hb, pyGetItem, exceptBindOk, exceptBindErr]
      · by_cases he : mps.isEmpty
        · simp [getParts, resolveGet, hb, he, pyGetItem, exceptBindOk, exceptBindErr]
        · simp [getParts, resolveGet, hb, he, pyContains, exceptBindOk, exceptBindErr]
  | bool b =>
      by_cases hb : isBang r
      · simp [getParts, resolveGet, hb, pyGetItem, exceptBindOk, exceptBindErr]
      · by_cases he : mps.isEmpty
        · simp [getParts, resolveGet, hb, he, pyGetItem, exceptBindOk, exceptBindErr]
        · simp [getParts, resolveGet, hb, he, pyContains, exceptBindOk, exceptBindErr]
  | int n =>
      by_cases hb : isBang r
      · simp [getParts, resolveGet, hb, pyGetItem, exceptBindOk, exceptBindErr]
      · by_cases he : mps.isEmpty
        · simp [getParts, resolveGet, hb, he, pyGetItem, exceptBindOk, exceptBindErr]
        · simp [getParts, resolveGet, hb, he, pyContains, exceptBindOk, exceptBindErr]
  | str s =>
      by_cases hb : isBang r
      · simp [getParts, resolveGet, hb, pyGetItem, exceptBindOk, exceptBindErr]
      · by_cases he : mps.isEmpty
        · simp [getParts, resolveGet, hb, he, pyGetItem, exceptBindOk, exceptBindErr]
        · simp [getParts, resolveGet, hb, he, pyContains, pyGetItem, exceptBindOk, exceptBindErr]
  | list xs =>
      by_cases hb : isBang r
      · simp [getParts, resolveGet, hb, pyGetItem, exceptBindOk, exceptBindErr]
      · by_cases he : mps.isEmpty
        · simp [getParts, resolveGet, hb, he, pyGetItem, exceptBindOk, exceptBindErr]
        · simp [getParts, resolveGet, hb, he, pyContains, pyGetItem, exceptBindOk, exceptBindErr]

/-- Deletion along segments whose lookup misses with `KeyError` returns
`false` and leaves the document unchanged. -/
theorem delParts_keyError (mps : Mappings) :
    ∀ (parts : List String) (kvs : List (String × Val)),
      getParts mps (.map kvs) parts = .error .keyError →
      delParts mps (.map kvs) parts = .ok (false, .map kvs) := by
  intro parts
  induction parts with
  | nil => intro kvs h; simp [getParts] at h
  | cons part rest ih =>
      intro kvs h
      cases hr : resolveGet mps (.map kvs) part with
      | error e =>
          have he := resolveGet_error mps (.map kvs) part e hr
          subst he
          simp [getParts, hr, exceptBindErr] at h
      | ok name =>
          cases hg : lookupKv kvs name with
          | none =>
              cases rest with
              | nil => simp [delParts, hr, hasKv, hg, exceptBindOk]
              | cons r rs => simp [delParts, hr, hg, exceptBindOk]
          | some next =>
              have h2 : getParts mps next rest = .error .keyError := by
                simpa [getParts, hr, pyGetItem, hg, exceptBindOk] using h
              cases rest with
              | nil => simp [getParts] at h2
              | cons r rs =>
                  cases next with
                  | map kvsN =>
                      have ihn := ih kvsN h2
                      simp [delParts, hr, hg, ihn, exceptBindOk,
                        setKv_lookup_eq kvs name (.map kvsN) hg]
                  | null =>
                      exact absurd h2 (getParts_cons_nonmap mps .null r rs
                        (fun kv => Val.noConfusion))
                  | bool b =>
                      exact absurd h2 (getParts_cons_nonmap mps (.bool b) r rs
                        (fun kv h' => Val.noConfusion h'))
                  | int n =>
                      exact absurd h2 (getParts_cons_nonmap mps (.int n) r rs
                        (fun kv h' => Val.noConfusion h'))
                  | str s =>
                      exact absurd h2 (getParts_cons_nonmap mps (.str s) r rs
                        (fun kv h' => Val.noConfusion h'))
                  | list xs =>
                      exact absurd h2 (getParts_cons_nonmap mps (.list xs) r rs
                        (fun kv h' => Val.noConfusion h'))

/-- C6 counterexample: on the document `{'a': 5}` the path `a/b` holds no
value (even reading it raises `TypeError`), yet `delete_path` raises
`TypeError` instead of returning false. -/
theorem c6_counterexample :
    delPath (.map [("a", .int 5)]) "a/b" [] = .error .typeError
      ∧ getPath (.map [("a", .int 5)]) "a/b" none [] = .error .typeError :=
  ⟨rfl, rfl⟩

/-- C6 (amended): for every document `d` and path `p` whose lookup misses
with `KeyError` (a missing key in a dictionary), `delete` returns false
without raising and leaves `d` completely unchanged; when the miss is due
to a non-dictionary intermediate value, `delete` instead raises
`TypeError`, exactly as `get` does. -/
theorem c6_delete_missing (mps : Mappings) (kvs : List (String × Val))
    (path : String)
    (h : getPath (.map kvs) path none mps = .error .keyError) :
    delPath (.map kvs) path mps = .ok (false, .map kvs) := by
  apply delParts_keyError
  unfold getPath at h
  cases hg : getParts mps (.map kvs) (splitStr '/' path) with
  | ok v => rw [hg] at h; exact absurd h (by simp)
  | error e => cases e with
      | keyError => rfl
      | typeError => rw [hg] at h; exact absurd h (by simp)

/-- Witness for C6: deleting the missing path `a/b` of `{'a': {'c': 1}}`
returns false and leaves the document unchanged. -/
theorem c6_delete_missing_witness :
    getPath (.map [("a", .map [("c", .int 1)])]) "a/b" none []
        = .error .keyError
      ∧ delPath (.map [("a", .map [("c", .int 1)])]) "a/b" []
        = .ok (false, .map [("a", .map [("c", .int 1)])]) :=
  ⟨rfl, c6_delete_missing [] [("a", .map [("c", .int 1)])] "a/b" rfl⟩

/-!
C5.  Semantics of `utils.merge` without name mappings.
-/

/-- Scalar values (neither a dictionary nor a sequence). -/
def isScalarV : Val → Bool
  | .map _ => false
  | .list _ => false
  | _ => true

/-- One successful step of `pyMerge` with no mappings: after processing the
head entry the merge continues on some destination that differs from the
previous one at most at the head's key. -/
theorem pyMerge_cons_shape (lists : Bool) (key : String) (value : Val)
    (f' dst : List (String × Val)) (rv : Val)
    (h : pyMerge [] lists ((key, value) :: f') (.map dst) = .ok rv) :
    ∃ dst', pyMerge [] lists f' (.map dst') = .ok rv
      ∧ (∀ k, k ≠ key → lookupKv dst' k = lookupKv dst k) := by
  simp only [pyMerge, pyContains, exceptBindOk, List.isEmpty_nil,
    Bool.not_true, Bool.and_false, Bool.false_eq_true, if_false] at h
  by_cases hk2 : hasKv dst key
  · simp only [hk2] at h
    rw [if_neg (by simp)] at h
    have hsome : ∃ inner, lookupKv dst key = some inner :=
      Option.isSome_iff_exists.mp hk2
    obtain ⟨inner, hi⟩ := hsome
    cases value with
    | map vkvs =>
        simp only [pyGetItem, hi, exceptBindOk] at h
        cases hm : pyMerge [] lists vkvs inner with
        | error e => rw [hm] at h; simp [exceptBindErr] at h
        | ok inner' =>
            rw [hm] at h
            simp only [exceptBindOk, pySetItem] at h
            exact ⟨setKv dst key inner', h,
              fun k hk => lookupKv_setKv_ne dst key k inner' hk⟩
    | list vxs =>
        cases lists with
        | false => exact ⟨dst, h, fun k _ => rfl⟩
        | true =>
            simp only [eq_self_iff_true, if_true, pyGetItem, hi,
              exceptBindOk] at h
            cases inner with
            | list cxs =>
                simp only [pySetItem, exceptBindOk] at h
                exact ⟨setKv dst key (.list (cxs ++ vxs)), h,
                  fun k hk => lookupKv_setKv_ne dst key k _ hk⟩
            | null => exact ⟨dst, h, fun k _ => rfl⟩
            | bool b => exact ⟨dst, h, fun k _ => rfl⟩
            | int n => exact ⟨dst, h, fun k _ => rfl⟩
            | str s => exact ⟨dst, h, fun k _ => rfl⟩
            | map m => exact ⟨dst, h, fun k _ => rfl⟩
    | null => exact ⟨dst, h, fun k _ => rfl⟩
    | bool b => exact ⟨dst, h, fun k _ => rfl⟩
    | int n => exact ⟨dst, h, fun k _ => rfl⟩
    | str s => exact ⟨dst, h, fun k _ => rfl⟩
  · simp only [eq_false_of_ne_true hk2, Bool.not_false, eq_self_iff_true,
      if_true, pySetItem, exceptBindOk] at h
    exact ⟨setKv dst key value, h,
      fun k hk => lookupKv_setKv_ne dst key k value hk⟩

/-- Keys not named by the source mapping keep their destination value
through a successful mapping-free merge (the merged result is always a
dictionary). -/
theorem pyMerge_preserve (lists : Bool) :
    ∀ (f dst : List (String × Val)) (rv : Val) (k : String),
      pyMerge [] lists f (.map dst) = .ok rv →
      k ∉ f.map Prod.fst →
      pyGetItem rv k = (match lookupKv dst k with
        | some v => .ok v
        | none => .error .keyError) := by
  intro f
  induction f with
  | nil =>
      intro dst rv k h _
      simp only [pyMerge, Except.ok.injEq] at h
      subst h
      rfl
  | cons hd f' ih =>
      obtain ⟨key, value⟩ := hd
      intro dst rv k h hk
      simp only [List.map_cons, List.mem_cons, not_or] at hk
      obtain ⟨dst', h', hpre⟩ :=
        pyMerge_cons_shape lists key value f' dst rv h
      rw [ih dst' rv k h' hk.2, hpre k hk.1]

/-- A key absent from the destination but present in the source is added
with the source value (no mappings). -/
theorem pyMerge_absent (lists : Bool) :
    ∀ (f dst : List (String × Val)) (rv : Val) (k : String) (fv : Val),
      pyMerge [] lists f (.map dst) = .ok rv →
      allDistinct (f.map Prod.fst) = true →
      lookupKv f k = some fv →
      lookupKv dst k = none →
      pyGetItem rv k = .ok fv := by
  intro f
  induction f with
  | nil => intro dst rv k fv h _ hf _; simp [lookupKv] at hf
  | cons hd f' ih =>
      obtain ⟨key, value⟩ := hd
      intro dst rv k fv h hdis hf hdst
      simp only [List.map_cons, allDistinct, Bool.and_eq_true] at hdis
      by_cases hkey : key = k
      · subst hkey
        have hfv : value = fv := by
          simpa [lookupKv] using hf
        subst hfv
        have hk2 : hasKv dst key = false := by simp [hasKv, hdst]
        simp only [pyMerge, pyContains, exceptBindOk, List.isEmpty_nil,
          Bool.not_true, Bool.and_false, Bool.false_eq_true, if_false, hk2,
          Bool.not_false, eq_self_iff_true, if_true, pySetItem] at h
        have hnot : key ∉ f'.map Prod.fst := by
          have := hdis.1
          simp only [Bool.not_eq_true'] at this
          simpa using this
        rw [pyMerge_preserve lists f' (setKv dst key value) rv key h hnot,
          lookupKv_setKv_self]
      · obtain ⟨dst', h', hpre⟩ :=
          pyMerge_cons_shape lists key value f' dst rv h
        have hf' : lookupKv f' k = some fv := by
          simpa [lookupKv, hkey] using hf
        refine ih dst' rv k fv h' hdis.2 hf' ?_
        rw [hpre k (fun he => hkey he.symm)]
        exact hdst

/-- A scalar source value never overwrites an existing destination value
(no mappings). -/
theorem pyMerge_scalar (lists : Bool) :
    ∀ (f dst : List (String × Val)) (rv : Val) (k : String) (fv tv : Val),
      pyMerge [] lists f (.map dst) = .ok rv →
      allDistinct (f.map Prod.fst) = true →
      lookupKv f k = some fv →
      isScalarV fv = true →
      lookupKv dst k = some tv →
      pyGetItem rv k = .ok tv := by
  intro f
  induction f with
  | nil => intro dst rv k fv tv h _ hf _ _; simp [lookupKv] at hf
  | cons hd f' ih =>
      obtain ⟨key, value⟩ := hd
      intro dst rv k fv tv h hdis hf hsc hdst
      simp only [List.map_cons, allDistinct, Bool.and_eq_true] at hdis
      by_cases hkey : key = k
      · subst hkey
        have hfv : value = fv := by
          simpa [lookupKv] using hf
        subst hfv
        have hk2 : hasKv dst key = true := by simp [hasKv, hdst]
        simp only [pyMerge, pyContains, exceptBindOk, List.isEmpty_nil,
          Bool.not_true, Bool.and_false, Bool.false_eq_true, if_false,
          hk2] at h
        have hnot : key ∉ f'.map Prod.fst := by
          have := hdis.1
          simp only [Bool.not_eq_true'] at this
          simpa using this
        have hrec : pyMerge [] lists f' (.map dst) = .ok rv := by
          cases value with
          | null => exact h
          | bool b => exact h
          | int n => exact h
          | str s => exact h
          | map m => simp [isScalarV] at hsc
          | list xs => simp [isScalarV] at hsc
        rw [pyMerge_preserve lists f' dst rv key hrec hnot, hdst]
      · obtain ⟨dst', h', hpre⟩ :=
          pyMerge_cons_shape lists key value f' dst rv h
        have hf' : lookupKv f' k = some fv := by
          simpa [lookupKv, hkey] using hf
        refine ih dst' rv k fv tv h' hdis.2 hf' hsc ?_
        rw [hpre k (fun he => hkey he.symm)]
        exact hdst

/-- Matching sequence values are concatenated exactly when the lists mode is
requested, and left untouched otherwise (no mappings). -/
theorem pyMerge_listConcat (lists : Bool) :
    ∀ (f dst : List (String × Val)) (rv : Val) (k : String)
      (fs ts : List Val),
      pyMerge [] lists f (.map dst) = .ok rv →
      allDistinct (f.map Prod.fst) = true →
      lookupKv f k = some (.list fs) →
      lookupKv dst k = some (.list ts) →
      pyGetItem rv k = .ok (.list (if lists then ts ++ fs else ts)) := by
  intro f
  induction f with
  | nil => intro dst rv k fs ts h _ hf _; simp [lookupKv] at hf
  | cons hd f' ih =>
      obtain ⟨key, value⟩ := hd
      intro dst rv k fs ts h hdis hf hdst
      simp only [List.map_cons, allDistinct, Bool.and_eq_true] at hdis
      by_cases hkey : key = k
      · subst hkey
        have hfv : value = Val.list fs := by
          simpa [lookupKv] using hf
        subst hfv
        have hk2 : hasKv dst key = true := by simp [hasKv, hdst]
        simp only [pyMerge, pyContains, exceptBindOk, List.isEmpty_nil,
          Bool.not_true, Bool.and_false, Bool.false_eq_true, if_false,
          hk2] at h
        have hnot : key ∉ f'.map Prod.fst := by
          have := hdis.1
          simp only [Bool.not_eq_true'] at this
          simpa using this
        cases lists with
        | false =>
            rw [pyMerge_preserve false f' dst rv key h hnot, hdst]
            simp
        | true =>
            simp only [eq_self_iff_true, if_true, pyGetItem, hdst,
              exceptBindOk, pySetItem] at h
            rw [pyMerge_preserve true f' (setKv dst key (.list (ts ++ fs)))
              rv key h hnot, lookupKv_setKv_self]
            simp
      · obtain ⟨dst', h', hpre⟩ :=
          pyMerge_cons_shape lists key value f' dst rv h
        have hf' : lookupKv f' k = some (Val.list fs) := by
          simpa [lookupKv, hkey] using hf
        refine ih dst' rv k fs ts h' hdis.2 hf' ?_
        rw [hpre k (fun he => hkey he.symm)]
        exact hdst

/-- C5: for every recursive merge of two mappings (no name mappings in
play, as in the claim): a key held by both sides as sequences is
concatenated exactly when the explicit lists mode is requested and left
untouched otherwise; a key held by both sides as scalars keeps the
destination value; a key absent from the destination is added from the
source. -/
theorem c5_merge_contract :
    (∀ (lists : Bool) (f dst : List (String × Val)) (rv : Val) (k : String)
        (fs ts : List Val),
      pyMerge [] lists f (.map dst) = .ok rv →
      allDistinct (f.map Prod.fst) = true →
      lookupKv f k = some (.list fs) →
      lookupKv dst k = some (.list ts) →
      pyGetItem rv k = .ok (.list (if lists then ts ++ fs else ts)))
    ∧ (∀ (lists : Bool) (f dst : List (String × Val)) (rv : Val)
        (k : String) (fv tv : Val),
      pyMerge [] lists f (.map dst) = .ok rv →
      allDistinct (f.map Prod.fst) = true →
      lookupKv f k = some fv →
      isScalarV fv = true →
      isScalarV tv = true →
      lookupKv dst k = some tv →
      pyGetItem rv k = .ok tv)
    ∧ (∀ (lists : Bool) (f dst : List (String × Val)) (rv : Val)
        (k : String) (fv : Val),
      pyMerge [] lists f (.map dst) = .ok rv →
      allDistinct (f.map Prod.fst) = true →
      lookupKv f k = some fv →
      lookupKv dst k = none →
      pyGetItem rv k = .ok fv) :=
  ⟨fun lists f dst rv k fs ts h hd hf hdst =>
      pyMerge_listConcat lists f dst rv k fs ts h hd hf hdst,
    fun lists f dst rv k fv tv h hd hf hsc _ hdst =>
      pyMerge_scalar lists f dst rv k fv tv h hd hf hsc hdst,
    fun lists f dst rv k fv h hd hf hdst =>
      pyMerge_absent lists f dst rv k fv h hd hf hdst⟩

/-- Witness for C5: concrete merges exercising all three behaviours - list
concatenation in lists mode, list preservation without it, scalar
preservation, and addition of an absent key. -/
theorem c5_merge_contract_witness :
    pyGetItem (.map [("k", .list [.int 1, .int 2])]) "k"
        = .ok (.list (if true then [.int 1] ++ [.int 2] else [.int 1]))
      ∧ pyGetItem (.map [("k", .list [.int 1])]) "k"
        = .ok (.list (if false then [.int 1] ++ [.int 2] else [.int 1]))
      ∧ pyGetItem (.map [("s", .int 9)]) "s" = .ok (.int 9)
      ∧ pyGetItem (.map [("s", .int 9), ("n", .str "v")]) "n"
        = .ok (.str "v") :=
  ⟨c5_merge_contract.1 true [("k", .list [.int 2])] [("k", .list [.int 1])]
      (.map [("k", .list [.int 1, .int 2])]) "k" [.int 2] [.int 1]
      rfl (by decide) rfl rfl,
    c5_merge_contract.1 false [("k", .list [.int 2])] [("k", .list [.int 1])]
      (.map [("k", .list [.int 1])]) "k" [.int 2] [.int 1]
      rfl (by decide) rfl rfl,
    c5_merge_contract.2.1 true [("s", .int 7)] [("s", .int 9)]
      (.map [("s", .int 9)]) "s" (.int 7) (.int 9)
      rfl (by decide) rfl rfl rfl rfl,
    c5_merge_contract.2.2 true [("n", .str "v")] [("s", .int 9)]
      (.map [("s", .int 9), ("n", .str "v")]) "n" (.str "v")
      rfl (by decide) rfl rfl⟩

/-!
C1.  The set/get round trip.
-/

/-- Traversal-safety of a path for the set-then-get round trip: at every
level reached by `set_path`, either the segment is `!`-escaped, or its raw
name is not already a key of that level, or its translation is the raw name
itself.  When this fails, `get` resolves the raw name verbatim to a key
different from the one `set` wrote. -/
def rtSafe (mps : Mappings) : List (String × Val) → List String → Bool
  | _, [] => true
  | kvs, part :: rest =>
      (isBang part || !hasKv kvs part || part == resolveSet mps part)
        && (match rest with
            | [] => true
            | _ :: _ =>
                match lookupKv kvs (resolveSet mps part) with
                | none => rtSafe mps [] rest
                | some (.map m) => rtSafe mps m rest
                | some _ => false)

/-- Every path is round-trip safe on the empty document. -/
theorem rtSafe_nil (mps : Mappings) : ∀ parts, rtSafe mps [] parts = true := by
  intro parts
  induction parts with
  | nil => rfl
  | cons part rest ih =>
      cases rest with
      | nil => simp [rtSafe, hasKv, lookupKv]
      | cons r rs =>
          rw [show rtSafe mps [] (part :: r :: rs)
            = ((isBang part || !hasKv [] part
                || part == resolveSet mps part)
              && rtSafe mps [] (r :: rs)) from rfl]
          simp [hasKv, lookupKv, ih]

/-- After `set_path` wrote under the resolved name, `get_path` resolves the
same segment to the same name, provided the level was round-trip safe. -/
theorem resolveGet_setKv (mps : Mappings) (kvs : List (String × Val))
    (part : String) (w : Val)
    (hsafe : (isBang part || !hasKv kvs part
      || part == resolveSet mps part) = true) :
    resolveGet mps (.map (setKv kvs (resolveSet mps part) w)) part
      = .ok (resolveSet mps part) := by
  by_cases hb : isBang part
  · simp [resolveGet, resolveSet, hb]
  · by_cases he : mps.isEmpty
    · simp [resolveGet, resolveSet, hb, he]
    · have hrs : resolveSet mps part = mget mps part := by
        simp [resolveSet, hb, he]
      simp only [hb, Bool.false_or, Bool.or_eq_true, Bool.not_eq_true',
        beq_iff_eq] at hsafe
      by_cases hpn : part = resolveSet mps part
      · have hmp : mget mps part = part := by rw [← hrs]; exact hpn.symm
        simp [resolveGet, hb, he, pyContains, hmp, ← hpn, exceptBindOk]
      · have hnk : hasKv kvs part = false := by
          rcases hsafe with h1 | h2
          · exact h1
          · exact absurd h2 hpn
        have hc : hasKv (setKv kvs (mget mps part) w) part = false := by
          unfold hasKv at hnk ⊢
          rw [lookupKv_setKv_ne kvs (mget mps part) part w
            (by rw [← hrs]; exact hpn)]
          exact hnk
        simp [resolveGet, hb, he, pyContains, hc, hrs, exceptBindOk]

/-- One traversal step of `get_path` (definitional; stated for rewriting). -/
theorem getParts_cons_eq (mps : Mappings) (item : Val) (part : String)
    (rest : List String) :
    getParts mps item (part :: rest)
      = (do
          let name ← resolveGet mps item part
          let next ← pyGetItem item name
          getParts mps next rest) := rfl

/-- The round trip over already split segments: a safe `set_path` succeeds
and the subsequent `get_path` of the same segments returns the value. -/
theorem setParts_roundtrip (mps : Mappings) (v : Val) :
    ∀ (parts : List String) (kvs : List (String × Val)), parts ≠ [] →
      rtSafe mps kvs parts = true →
      ∃ kvs', setParts mps kvs parts v = .ok kvs'
        ∧ getParts mps (.map kvs') parts = .ok v := by
  intro parts
  induction parts with
  | nil => intro kvs h _; exact absurd rfl h
  | cons part rest ih =>
      intro kvs _ hsafe
      cases rest with
      | nil =>
          have hs1 : (isBang part || !hasKv kvs part
              || part == resolveSet mps part) = true := by
            simpa [rtSafe] using hsafe
          refine ⟨setKv kvs (resolveSet mps part) v, rfl, ?_⟩
          rw [getParts_cons_eq, resolveGet_setKv mps kvs part v hs1]
          simp only [exceptBindOk, pyGetItem, lookupKv_setKv_self]
          rfl
      | cons r rs =>
          simp only [rtSafe, Bool.and_eq_true] at hsafe
          obtain ⟨hs1, hs2⟩ := hsafe
          cases hl : lookupKv kvs (resolveSet mps part) with
          | none =>
              obtain ⟨inner, hset, hget⟩ :=
                ih [] (by simp) (rtSafe_nil mps (r :: rs))
              refine ⟨setKv kvs (resolveSet mps part) (.map inner), ?_, ?_⟩
              · simp [setParts, hl, hset, exceptBindOk]
              · rw [getParts_cons_eq,
                  resolveGet_setKv mps kvs part (.map inner) hs1]
                simp only [exceptBindOk, pyGetItem, lookupKv_setKv_self]
                exact hget
          | some found =>
              cases found with
              | map m =>
                  rw [hl] at hs2
                  obtain ⟨inner, hset, hget⟩ := ih m (by simp) hs2
                  refine ⟨setKv kvs (resolveSet mps part) (.map inner),
                    ?_, ?_⟩
                  · simp [setParts, hl, hset, exceptBindOk]
                  · rw [getParts_cons_eq,
                      resolveGet_setKv mps kvs part (.map inner) hs1]
                    simp only [exceptBindOk, pyGetItem, lookupKv_setKv_self]
                    exact hget
              | null => rw [hl] at hs2; simp at hs2
              | bool b => rw [hl] at hs2; simp at hs2
              | int n => rw [hl] at hs2; simp at hs2
              | str s => rw [hl] at hs2; simp at hs2
              | list xs => rw [hl] at hs2; simp at hs2

/-- Splitting a path never yields an empty segment list. -/
theorem splitStr_ne_nil (delim : Char) (s : String) :
    splitStr delim s ≠ [] := by
  unfold splitStr
  cases hs : s.toList with
  | nil => simp [splitChar]
  | cons c cs =>
      simp only [splitChar]
      by_cases hc : c == delim
      · simp [hc]
      · simp only [hc, Bool.false_eq_true, if_false]
        cases splitChar delim cs <;> simp

/-- C1 counterexample: the round trip fails when the raw segment name is
already a key of the document while its translation differs.  With the
mapping `foo ↦ f` on the document `{'foo': 1}`, `set('foo', 2)` writes the
translated key `f`, but `get('foo')` finds the verbatim key `foo` first and
returns the stale value 1, not 2. -/
theorem c1_counterexample :
    setPath [("foo", .int 1)] "foo" (.int 2) [("foo", "f")]
        = .ok [("foo", .int 1), ("f", .int 2)]
      ∧ getPath (.map [("foo", .int 1), ("f", .int 2)]) "foo" none
          [("foo", "f")] = .ok (.int 1)
      ∧ Val.int 1 ≠ Val.int 2 :=
  ⟨rfl, rfl, fun h => absurd (Val.int.inj h) (by decide)⟩

/-- C1 (amended): for every mapping table, path and value, `set(p, v)`
followed by `get(p)` on the same document returns `v` - with the mapped
short name written by set resolved back by get, whether the path segments
use names that translate, names that translate to themselves, or
`!`-escaped segments - provided the path is round-trip safe for the
document: no traversed level already holds the raw segment name under a
diverging translation (an empty document is always safe). -/
theorem c1_set_get_roundtrip (mps : Mappings) (kvs : List (String × Val))
    (path : String) (v : Val)
    (hsafe : rtSafe mps kvs (splitStr '/' path) = true) :
    ∃ kvs', setPath kvs path v mps = .ok kvs'
      ∧ getPath (.map kvs') path none mps = .ok v := by
  obtain ⟨kvs', hset, hget⟩ := setParts_roundtrip mps v (splitStr '/' path)
    kvs (splitStr_ne_nil '/' path) hsafe
  exact ⟨kvs', hset, by simp [getPath, hget]⟩

/-- Witness for C1: the round trip of `meta/id` through the global field
mappings on the empty document (set writes `m/i`, get reads it back). -/
theorem c1_set_get_roundtrip_witness :
    rtSafe FIELD_MAPPINGS [] (splitStr '/' "meta/id") = true
      ∧ ∃ kvs', setPath [] "meta/id" (.str "RID") FIELD_MAPPINGS = .ok kvs'
        ∧ getPath (.map kvs') "meta/id" none FIELD_MAPPINGS
          = .ok (.str "RID") :=
  ⟨by decide, c1_set_get_roundtrip FIELD_MAPPINGS [] "meta/id" (.str "RID")
    (by decide)⟩

/-!
C10.  Pruning of emptied ancestors by `delete_path`.
-/

mutual

/-- Well-formedness of a value as Python data: every dictionary in the tree
has pairwise distinct keys (a real `dict` cannot hold a key twice). -/
def keysND : Val → Bool
  | .map kvs => allDistinct (kvs.map Prod.fst) && keysNDKvs kvs
  | .list xs => keysNDList xs
  | _ => true

/-- Well-formedness of all values of an association list. -/
def keysNDKvs : List (String × Val) → Bool
  | [] => true
  | (_, v) :: rest => keysND v && keysNDKvs rest

/-- Well-formedness of all elements of a value list. -/
def keysNDList : List Val → Bool
  | [] => true
  | v :: rest => keysND v && keysNDList rest

end

/-- Lookup in a well-formed association list yields well-formed values. -/
theorem keysNDKvs_lookup (kvs : List (String × Val)) (k : String) (v : Val)
    (hnd : keysNDKvs kvs = true) (hl : lookupKv kvs k = some v) :
    keysND v = true := by
  induction kvs with
  | nil => simp [lookupKv] at hl
  | cons hd t ih =>
      obtain ⟨k0, v0⟩ := hd
      simp only [keysNDKvs, Bool.and_eq_true] at hnd
      by_cases hk : k0 = k
      · subst hk
        simp only [lookupKv, if_pos (beq_self_eq_true k0),
          Option.some.injEq] at hl
        rw [← hl]
        exact hnd.1
      · simp [lookupKv, hk] at hl
        exact ih hnd.2 hl

/-- With no mappings, segment resolution depends only on the segment. -/
theorem resolveGet_nil (item : Val) (part : String) :
    resolveGet [] item part
      = .ok (if isBang part then strTail part else part) := by
  by_cases hb : isBang part <;> simp [resolveGet, hb]

/-- A successful deletion starts from a dictionary and, when the result is
reported mutated (`true`), ends in a dictionary. -/
theorem delParts_true_shape (mps : Mappings) (parts : List String)
    (item item' : Val) (hne : parts ≠ [])
    (h : delParts mps item parts = .ok (true, item')) :
    (∃ kvs, item = .map kvs) ∧ ∃ kvs', item' = .map kvs' := by
  cases parts with
  | nil => exact absurd rfl hne
  | cons part rest =>
      cases hr : resolveGet mps item part with
      | error e =>
          cases rest <;> simp [delParts, hr, exceptBindErr] at h
      | ok name =>
          cases item with
          | map kvs =>
              refine ⟨⟨kvs, rfl⟩, ?_⟩
              cases rest with
              | nil =>
                  by_cases hk : hasKv kvs name
                  · simp only [delParts, hr, exceptBindOk, hk,
                      eq_self_iff_true, if_true, Except.ok.injEq,
                      Prod.mk.injEq] at h
                    exact ⟨eraseKv kvs name, h.2.symm⟩
                  · simp [delParts, hr, exceptBindOk,
                      eq_false_of_ne_true hk] at h
              | cons r rs =>
                  cases hl : lookupKv kvs name with
                  | none => simp [delParts, hr, exceptBindOk, hl] at h
                  | some inner =>
                      cases hres : delParts mps inner (r :: rs) with
                      | error e =>
                          simp [delParts, hr, exceptBindOk, hl, hres,
                            exceptBindErr] at h
                      | ok p =>
                          obtain ⟨b, inner2⟩ := p
                          cases b with
                          | false =>
                              simp [delParts, hr, exceptBindOk, hl,
                                hres] at h
                          | true =>
                              by_cases ht : pyTruthy inner2
                              · simp only [delParts, hr, exceptBindOk, hl,
                                  hres, ht, eq_self_iff_true, if_true,
                                  Except.ok.injEq, Prod.mk.injEq] at h
                                exact ⟨setKv kvs name inner2, h.2.symm⟩
                              · simp only [delParts, hr, exceptBindOk, hl,
                                  hres, eq_false_of_ne_true ht,
                                  Bool.false_eq_true, if_false,
                                  eq_self_iff_true, if_true,
                                  Except.ok.injEq, Prod.mk.injEq] at h
                                exact ⟨eraseKv kvs name, h.2.symm⟩
          | null => cases rest <;> simp [delParts, hr, exceptBindOk] at h
          | bool b => cases rest <;> simp [delParts, hr, exceptBindOk] at h
          | int n => cases rest <;> simp [delParts, hr, exceptBindOk] at h
          | str s => cases rest <;> simp [delParts, hr, exceptBindOk] at h
          | list xs =>
              cases rest <;> simp [delParts, hr, exceptBindOk] at h

/-- Anatomy of a successful multi-segment delete step without mappings: the
resolved head key held some inner value, the inner delete succeeded, and the
entry was either written back (when the mutated inner value is truthy) or
deleted together with its key (when it became empty/falsy). -/
theorem delStep (kvs : List (String × Val)) (part r : String)
    (rs : List String) (d' : Val)
    (h : delParts [] (.map kvs) (part :: r :: rs) = .ok (true, d')) :
    ∃ inner inner2,
      lookupKv kvs (if isBang part then strTail part else part) = some inner
      ∧ delParts [] inner (r :: rs) = .ok (true, inner2)
      ∧ ((pyTruthy inner2 = true
          ∧ d' = .map (setKv kvs
              (if isBang part then strTail part else part) inner2))
        ∨ (pyTruthy inner2 = false
          ∧ d' = .map (eraseKv kvs
              (if isBang part then strTail part else part)))) := by
  cases hl : lookupKv kvs (if isBang part then strTail part else part) with
  | none => simp [delParts, resolveGet_nil, exceptBindOk, hl] at h
  | some inner =>
      cases hres : delParts [] inner (r :: rs) with
      | error e =>
          simp [delParts, resolveGet_nil, exceptBindOk, hl, hres,
            exceptBindErr] at h
      | ok rp =>
          obtain ⟨b, inner2⟩ := rp
          cases b with
          | false =>
              simp [delParts, resolveGet_nil, exceptBindOk, hl, hres] at h
          | true =>
              by_cases ht : pyTruthy inner2
              · simp only [delParts, resolveGet_nil, exceptBindOk, hl, hres,
                  ht, eq_self_iff_true, if_true, Except.ok.injEq,
                  Prod.mk.injEq, true_and] at h
                exact ⟨inner, inner2, rfl, hres, Or.inl ⟨ht, h.symm⟩⟩
              · simp only [delParts, resolveGet_nil, exceptBindOk, hl, hres,
                  eq_false_of_ne_true ht, Bool.false_eq_true, if_false,
                  eq_self_iff_true, if_true, Except.ok.injEq,
                  Prod.mk.injEq, true_and] at h
                exact ⟨inner, inner2, rfl, hres,
                  Or.inr ⟨eq_false_of_ne_true ht, h.symm⟩⟩

/-- After a successful delete of a multi-segment path (no mappings), no
proper non-empty prefix of the path addresses an empty dictionary in the
result: ancestors that became empty were removed along with their keys. -/
theorem delParts_no_empty_prefix :
    ∀ (q : List String) (kvs : List (String × Val)) (rext : List String)
      (d' : Val), q ≠ [] → rext ≠ [] → keysND (.map kvs) = true →
      delParts [] (.map kvs) (q ++ rext) = .ok (true, d') →
      getParts [] d' q ≠ .ok (.map ([] : List (String × Val))) := by
  intro q
  induction q with
  | nil => intro kvs rext d' hq; exact absurd rfl hq
  | cons part q' ih =>
      intro kvs rext d' _ hrext hnd hdel
      simp only [keysND, Bool.and_eq_true] at hnd
      have hstep : ∃ inner inner2,
          lookupKv kvs (if isBang part then strTail part else part)
            = some inner
          ∧ delParts [] inner (q' ++ rext) = .ok (true, inner2)
          ∧ ((pyTruthy inner2 = true
              ∧ d' = .map (setKv kvs
                  (if isBang part then strTail part else part) inner2))
            ∨ (pyTruthy inner2 = false
              ∧ d' = .map (eraseKv kvs
                  (if isBang part then strTail part else part)))) := by
        cases hq' : q' with
        | nil =>
            cases hre : rext with
            | nil => exact absurd hre hrext
            | cons re res =>
                subst hq'
                subst hre
                exact delStep kvs part re res d' hdel
        | cons p2 q2 =>
            subst hq'
            exact delStep kvs part p2 (q2 ++ rext) d' hdel
      obtain ⟨inner, inner2, hl, hin, hcase⟩ := hstep
      have hinner_shape := delParts_true_shape [] (q' ++ rext) inner inner2
        (by cases q' <;> simp [hrext]) hin
      obtain ⟨⟨kvsI, hkvsI⟩, ⟨kvs2, hkvs2⟩⟩ := hinner_shape
      rcases hcase with ⟨ht, hd⟩ | ⟨ht, hd⟩
      · -- the entry was written back with a truthy (non-empty) value
        subst hd
        rw [getParts_cons_eq, resolveGet_nil]
        simp only [exceptBindOk, pyGetItem, lookupKv_setKv_self]
        cases q' with
        | nil =>
            subst hkvs2
            simp only [getParts]
            intro hcontra
            have : kvs2 = [] := by
              simpa using hcontra
            rw [this] at ht
            simp [pyTruthy] at ht
        | cons p2 q2 =>
            subst hkvsI
            refine ih kvsI rext inner2 (by simp) hrext ?_ hin
            exact keysNDKvs_lookup kvs _ _ hnd.2 hl
      · -- the entry became empty and was deleted with its key
        subst hd
        rw [getParts_cons_eq, resolveGet_nil]
        have herase : lookupKv
            (eraseKv kvs (if isBang part then strTail part else part))
            (if isBang part then strTail part else part) = none :=
          lookupKv_eraseKv_self kvs _ hnd.1
        simp [exceptBindOk, pyGetItem, herase, exceptBindErr]

/-- C10: for every well-formed document and multi-segment path that exists
in it, a successful `delete` also removes each ancestor mapping along the
path that becomes empty as a result of the deletion: afterwards no proper
non-empty prefix of the path addresses an empty dictionary, so an existence
check on an emptied intermediate path fails as well (stated for deletion
without name mappings, as the claim involves no translation). -/
theorem c10_delete_prunes (kvs : List (String × Val)) (path : String)
    (q rext : List String) (d' : Val)
    (hsplit : splitStr '/' path = q ++ rext)
    (hq : q ≠ []) (hrext : rext ≠ [])
    (hnd : keysND (.map kvs) = true)
    (hdel : delPath (.map kvs) path [] = .ok (true, d')) :
    getParts [] d' q ≠ .ok (.map ([] : List (String × Val))) := by
  apply delParts_no_empty_prefix q kvs rext d' hq hrext hnd
  rw [← hsplit]
  exact hdel

/-- Witness for C10: deleting `a/b` from `{'a': {'b': 1}}` succeeds, prunes
the emptied ancestor `a`, and the prefix `a` addresses nothing afterwards. -/
theorem c10_delete_prunes_witness :
    delPath (.map [("a", .map [("b", .int 1)])]) "a/b" []
        = .ok (true, .map [])
      ∧ getParts [] (.map ([] : List (String × Val))) ["a"]
        ≠ .ok (.map ([] : List (String × Val))) :=
  ⟨rfl, c10_delete_prunes [("a", .map [("b", .int 1)])] "a/b" ["a"] ["b"]
    (.map []) (by decide) (by decide) (by decide) (by decide) rfl⟩

/-!
C3.  Version resolution.
-/

/-- Collapsing star runs leaves a star-free string unchanged. -/
theorem collapseGo_no_star : ∀ (l : List Char), '*' ∉ l →
    collapseGo false l = l := by
  intro l
  induction l with
  | nil => intro _; rfl
  | cons c rest ih =>
      intro h
      simp only [List.mem_cons, not_or] at h
      have hcc : c ≠ '*' := fun he => h.1 he.symm
      have hc : (c == '*') = false := by
        simpa using hcc
      simp [collapseGo, hc, ih h.2]

/-- A star-free pattern is unchanged by duplicate-star removal. -/
theorem collapseStars_no_star (pat : String)
    (h : strHasChar pat '*' = false) : collapseStars pat = pat := by
  unfold collapseStars
  rw [collapseGo_no_star pat.toList (by simpa [strHasChar] using h)]
  exact strMkToList pat

/-- Collapsing star runs keeps at least one star. -/
theorem collapseGo_keeps_star : ∀ (l : List Char), '*' ∈ l →
    '*' ∈ collapseGo false l := by
  intro l
  induction l with
  | nil => intro h; simp at h
  | cons c rest ih =>
      intro h
      by_cases hc : c = '*'
      · subst hc
        simp [collapseGo]
      · have hmem : '*' ∈ rest := by
          rcases List.mem_cons.mp h with h1 | h1
          · exact absurd h1.symm hc
          · exact h1
        have hcb : (c == '*') = false := by simpa using hc
        simp [collapseGo, hcb, ih hmem]

/-- A pattern containing a star still contains one after collapsing. -/
theorem collapseStars_keeps_star (pat : String)
    (h : strHasChar pat '*' = true) :
    strHasChar (collapseStars pat) '*' = true := by
  unfold strHasChar collapseStars
  have : '*' ∈ collapseGo false pat.toList :=
    collapseGo_keeps_star pat.toList (by simpa [strHasChar] using h)
  simpa using this

/-- Stable insertion into a sorted list is never empty. -/
theorem insertSorted_ne_nil (x : List String) (l : List (List String)) :
    insertSorted x l ≠ [] := by
  cases l with
  | nil => simp [insertSorted]
  | cons y ys =>
      by_cases hle : lexLe x y
      · simp [insertSorted, hle]
      · simp [insertSorted, hle]

/-- Sorting a non-empty version list yields a non-empty list. -/
theorem sortVersions_ne_nil (versions : List String)
    (h : versions ≠ []) : sortVersions versions ≠ [] := by
  cases versions with
  | nil => exact absurd rfl h
  | cons v vs =>
      unfold sortVersions
      simp only [List.map_cons, sortLex]
      intro hc
      exact insertSorted_ne_nil _ _ (by simpa using hc)

/-- C3 counterexample: resolution does not raise `VersionNotFound` whenever
no candidate matches.  A wildcard-free pattern is returned verbatim even
when absent from the candidate set; a wildcard pattern can return a string
that is in no candidate (the selected candidate's leading part glued to the
pattern's static suffix); and the pattern `*` on an empty candidate list
fails with an index error, not `VersionNotFound`. -/
theorem c3_counterexample :
    resolveVersion 9 "2.0" ["1.0"] = .ok "2.0"
      ∧ ("2.0" ∉ (["1.0"] : List String))
      ∧ resolveVersion 9 "*.2" ["1.2", "2.1"] = .ok "2.2"
      ∧ ("2.2" ∉ (["1.2", "2.1"] : List String))
      ∧ resolveVersion 9 "*" ([] : List String) = .error .indexErr :=
  ⟨rfl, by decide, rfl, by decide, rfl⟩

/-- C3 (amended): version resolution behaves as follows (for any positive
recursion fuel).  A wildcard-free pattern is returned verbatim without
consulting the candidate set, so no `VersionNotFound` is raised for it; the
pattern `*` returns the last element of the sorted candidates; any other
wildcard pattern raises `VersionNotFound` on an empty candidate set.  (The
returned string of a wildcard pattern need not belong to the candidate set,
as the counterexample shows.) -/
theorem c3_resolution_behaviour :
    (∀ (fuel : Nat) (pat : String) (versions : List String),
        strHasChar pat '*' = false →
        resolveVersion (fuel + 1) pat versions = .ok pat)
      ∧ (∀ (fuel : Nat) (versions : List String), versions ≠ [] →
        ∃ last, (sortVersions versions).getLast? = some last
          ∧ resolveVersion (fuel + 1) "*" versions = .ok last)
      ∧ (∀ (fuel : Nat) (pat : String),
        strHasChar pat '*' = true → collapseStars pat ≠ "*" →
        resolveVersion (fuel + 1) pat []
          = .error (.notFound (collapseStars pat))) := by
  refine ⟨?_, ?_, ?_⟩
  · intro fuel pat versions h
    have hco := collapseStars_no_star pat h
    unfold resolveVersion mkVPattern
    rw [hco]
    simp [findVersion, h]
  · intro fuel versions h
    have hne := sortVersions_ne_nil versions h
    obtain ⟨last, hlast⟩ :=
      Option.isSome_iff_exists.mp (by
        rw [List.getLast?_isSome]
        exact hne)
    refine ⟨last, hlast, ?_⟩
    unfold resolveVersion
    have hpat : mkVPattern "*"
        = { value := "*", part := "*", suffix := none, static := false,
            latest := true } := by decide
    rw [hpat]
    simp only [findVersion, Bool.false_eq_true, if_false, if_pos rfl]
    rw [List.getLast?_map, hlast]
    rfl
  · intro fuel pat hstar hne
    have hkeep := collapseStars_keeps_star pat hstar
    unfold resolveVersion mkVPattern
    simp only [hkeep, eq_self_iff_true, if_true]
    have hlat : (collapseStars pat == "*") = false := by
      simpa using hne
    simp [findVersion, hlat, sortVersions, sortLex]

/-- Witness for C3: a static pattern returned verbatim, `*` selecting the
last sorted candidate, and a wildcard pattern failing on an empty set. -/
theorem c3_resolution_behaviour_witness :
    resolveVersion 9 "1.0" ["0.5"] = .ok "1.0"
      ∧ (∃ last, (sortVersions ["1.0", "2.0"]).getLast? = some last
          ∧ resolveVersion 9 "*" ["1.0", "2.0"] = .ok last)
      ∧ resolveVersion 9 "1.*" [] = .error (.notFound (collapseStars "1.*")) :=
  ⟨c3_resolution_behaviour.1 8 "1.0" ["0.5"] (by decide),
    c3_resolution_behaviour.2.1 8 ["1.0", "2.0"] (by decide),
    c3_resolution_behaviour.2.2 8 "1.*" (by decide) (by decide)⟩

/-!
C2.  The run-time call merge-back.
-/

/-- One traversal step of the get-update walk (definitional). -/
theorem getUpdateParts_cons_eq (mps : Mappings) (f : Val → Except Err Val)
    (item : Val) (part : String) (rest : List String) :
    getUpdateParts mps f item (part :: rest)
      = (do
          let name ← resolveGet mps item part
          let inner ← pyGetItem item name
          let inner' ← getUpdateParts mps f inner rest
          pySetItem item name inner') := rfl

/-- Resolution of a non-escaped segment against a dictionary under a
non-empty mapping table: the verbatim name when present, its translation
otherwise. -/
theorem resolveGet_map (mps : Mappings) (data : List (String × Val))
    (p : String) (hb : isBang p = false) (he : mps.isEmpty = false) :
    resolveGet mps (.map data) p
      = .ok (if hasKv data p then p else mget mps p) := by
  simp [resolveGet, hb, he, pyContains, exceptBindOk]

/-- The global field mapping table is non-empty. -/
theorem fmNonEmpty : FIELD_MAPPINGS.isEmpty = false := rfl

/-- A successful single-segment `LookupDict.merge` at path `p` changes the
caller document only at `p` or its translation: every other key keeps its
value. -/
theorem ldMerge_lookup_ne (data : List (String × Val)) (p : String)
    (value : Val) (r : List (String × Val))
    (hsplit : splitStr '/' p = [p]) (hb : isBang p = false)
    (h : ldMerge data FIELD_MAPPINGS p value = .ok r) (k : String)
    (hk1 : k ≠ p) (hk2 : k ≠ mget FIELD_MAPPINGS p) :
    lookupKv r k = lookupKv data k := by
  cases value with
  | null => exact absurd h (by simp [ldMerge])
  | bool b => exact absurd h (by simp [ldMerge])
  | int n => exact absurd h (by simp [ldMerge])
  | str s => exact absurd h (by simp [ldMerge])
  | list xs => exact absurd h (by simp [ldMerge])
  | map vkvs =>
      have hred : ldMerge data FIELD_MAPPINGS p (.map vkvs)
          = (match getParts FIELD_MAPPINGS (.map data) (splitStr '/' p) with
            | .ok (.map _) =>
                (match getUpdateParts FIELD_MAPPINGS
                    (pyMerge FIELD_MAPPINGS true vkvs) (.map data)
                    (splitStr '/' p) with
                  | .ok (.map r') => .ok r'
                  | .ok _ => .error .typeError
                  | .error e => .error e)
            | .ok _ => .error .typeError
            | .error .keyError => do
                let d1 ← setParts FIELD_MAPPINGS data (splitStr '/' p)
                  (.map [])
                let inner ← pyMerge FIELD_MAPPINGS true vkvs (.map [])
                setParts FIELD_MAPPINGS d1 (splitStr '/' p) inner
            | .error e => .error e) := rfl
      have hres := resolveGet_map FIELD_MAPPINGS data p hb fmNonEmpty
      have hkn : k ≠ (if hasKv data p then p
          else mget FIELD_MAPPINGS p) := by
        by_cases hc : hasKv data p
        · simpa [hc] using hk1
        · simpa [hc, eq_false_of_ne_true hc] using hk2
      cases hl : lookupKv data (if hasKv data p then p
          else mget FIELD_MAPPINGS p) with
      | some item =>
          have hget : getParts FIELD_MAPPINGS (.map data) [p]
              = .ok item := by
            rw [getParts_cons_eq, hres]
            simp [exceptBindOk, pyGetItem, hl, getParts]
          cases item with
          | map m =>
              have hup : getUpdateParts FIELD_MAPPINGS
                  (pyMerge FIELD_MAPPINGS true vkvs) (.map data) [p]
                  = (do
                      let inner' ← pyMerge FIELD_MAPPINGS true vkvs (.map m)
                      pySetItem (.map data)
                        (if hasKv data p then p else mget FIELD_MAPPINGS p)
                        inner') := by
                rw [getUpdateParts_cons_eq, hres]
                simp [exceptBindOk, pyGetItem, hl, getUpdateParts]
              have hval : ldMerge data FIELD_MAPPINGS p (.map vkvs)
                  = (match getUpdateParts FIELD_MAPPINGS
                      (pyMerge FIELD_MAPPINGS true vkvs) (.map data) [p] with
                    | .ok (.map r') => .ok r'
                    | .ok _ => .error .typeError
                    | .error e => .error e) := by
                rw [hred, hsplit, hget]
              rw [hval, hup] at h
              cases hm : pyMerge FIELD_MAPPINGS true vkvs (.map m) with
              | error e =>
                  rw [hm] at h
                  exact absurd h (by simp [exceptBindErr])
              | ok inner' =>
                  rw [hm] at h
                  simp only [exceptBindOk, pySetItem] at h
                  have hr := Except.ok.inj h
                  rw [← hr]
                  exact lookupKv_setKv_ne data _ k inner' hkn
          | null =>
              have hval : ldMerge data FIELD_MAPPINGS p (.map vkvs)
                  = .error .typeError := by rw [hred, hsplit, hget]
              rw [hval] at h
              exact absurd h (by simp)
          | bool b =>
              have hval : ldMerge data FIELD_MAPPINGS p (.map vkvs)
                  = .error .typeError := by rw [hred, hsplit, hget]
              rw [hval] at h
              exact absurd h (by simp)
          | int n =>
              have hval : ldMerge data FIELD_MAPPINGS p (.map vkvs)
                  = .error .typeError := by rw [hred, hsplit, hget]
              rw [hval] at h
              exact absurd h (by simp)
          | str s =>
              have hval : ldMerge data FIELD_MAPPINGS p (.map vkvs)
                  = .error .typeError := by rw [hred, hsplit, hget]
              rw [hval] at h
              exact absurd h (by simp)
          | list xs2 =>
              have hval : ldMerge data FIELD_MAPPINGS p (.map vkvs)
                  = .error .typeError := by rw [hred, hsplit, hget]
              rw [hval] at h
              exact absurd h (by simp)
      | none =>
          have hget : getParts FIELD_MAPPINGS (.map data) [p]
              = .error .keyError := by
            rw [getParts_cons_eq, hres]
            simp [exceptBindOk, pyGetItem, hl, exceptBindErr]
          have hval : ldMerge data FIELD_MAPPINGS p (.map vkvs)
              = (do
                  let d1 ← setParts FIELD_MAPPINGS data [p] (.map [])
                  let inner ← pyMerge FIELD_MAPPINGS true vkvs (.map [])
                  setParts FIELD_MAPPINGS d1 [p] inner) := by
            rw [hred, hsplit, hget]
          rw [hval] at h
          have hrs : resolveSet FIELD_MAPPINGS p
              = mget FIELD_MAPPINGS p := by
            simp [resolveSet, hb, fmNonEmpty]
          simp only [setParts, hrs, exceptBindOk] at h
          cases hm : pyMerge FIELD_MAPPINGS true vkvs (.map []) with
          | error e => rw [hm] at h; exact absurd h (by simp [exceptBindErr])
          | ok inner =>
              rw [hm] at h
              simp only [exceptBindOk] at h
              have hr := Except.ok.inj h
              rw [← hr, setKv_setKv]
              exact lookupKv_setKv_ne data _ k inner hk2

/-- Splitting a successful `foldlM` over an appended path list. -/
theorem foldlM_append_ok {α : Type}
    (f : List (String × Val) → α → Except Err (List (String × Val))) :
    ∀ (l1 l2 : List α) (acc r : List (String × Val)),
      (l1 ++ l2).foldlM f acc = .ok r →
      ∃ mid, l1.foldlM f acc = .ok mid ∧ l2.foldlM f mid = .ok r := by
  intro l1
  induction l1 with
  | nil => intro l2 acc r h; exact ⟨acc, rfl, h⟩
  | cons a l1' ih =>
      intro l2 acc r h
      simp only [List.cons_append, List.foldlM] at h ⊢
      cases hf : f acc a with
      | error e => rw [hf] at h; exact absurd h (by simp [exceptBindErr])
      | ok acc' =>
          rw [hf] at h
          simp only [exceptBindOk] at h
          obtain ⟨mid, h1, h2⟩ := ih l2 acc' r h
          exact ⟨mid, by simp [exceptBindOk, h1], h2⟩

/-- A single merge-back iteration keeps the value of every key that is
neither the section name nor its translation - and of every key at all when
the callee section read back falsy. -/
theorem mergeStep_lookup_ne (callee : Val) (acc r : List (String × Val))
    (p k : String) (hs : splitStr '/' p = [p]) (hb : isBang p = false)
    (hor : k ≠ p ∧ k ≠ mget FIELD_MAPPINGS p
      ∨ ∃ v, payloadGetPath callee p = .ok v ∧ pyTruthy v = false)
    (h : mergeStep callee acc p = .ok r) :
    lookupKv r k = lookupKv acc k := by
  unfold mergeStep at h
  cases hv : payloadGetPath callee p with
  | error e => rw [hv] at h; exact absurd h (by simp [exceptBindErr])
  | ok v =>
      rw [hv] at h
      simp only [exceptBindOk] at h
      by_cases ht : pyTruthy v
      · rw [if_pos ht] at h
        rcases hor with ⟨hk1, hk2⟩ | ⟨v0, hv0, hf0⟩
        · exact ldMerge_lookup_ne acc p v r hs hb h k hk1 hk2
        · rw [hv] at hv0
          rw [Except.ok.inj hv0] at ht
          exact absurd ht (by simp [hf0])
      · rw [if_neg ht] at h
        rw [← Except.ok.inj h]

/-- Iterating merge-back over a path list keeps the value of every key that
no path of the list can touch. -/
theorem foldMerge_lookup (callee : Val) :
    ∀ (paths : List String) (acc r : List (String × Val)) (k : String),
      (∀ p ∈ paths, splitStr '/' p = [p] ∧ isBang p = false
        ∧ (k ≠ p ∧ k ≠ mget FIELD_MAPPINGS p
          ∨ ∃ v, payloadGetPath callee p = .ok v ∧ pyTruthy v = false)) →
      paths.foldlM (mergeStep callee) acc = .ok r →
      lookupKv r k = lookupKv acc k := by
  intro paths
  induction paths with
  | nil =>
      intro acc r k _ h
      rw [← Except.ok.inj h]
  | cons p ps ih =>
      intro acc r k hcond h
      simp only [List.foldlM] at h
      cases hstep : mergeStep callee acc p with
      | error e => rw [hstep] at h; exact absurd h (by simp [exceptBindErr])
      | ok acc' =>
          rw [hstep] at h
          simp only [exceptBindOk] at h
          obtain ⟨hs, hb, hor⟩ := hcond p (by simp)
          rw [ih acc' r k (fun q hq => hcond q (by simp [hq])) h]
          exact mergeStep_lookup_ne callee acc acc' p k hs hb hor hstep

/-- The merge performed for the `calls` section: the callee's single
service/version call list is concatenated onto the caller's. -/
theorem pyMerge_calls (cm vm : List (String × Val)) (s ver : String)
    (xs ys : List Val) (hcs : lookupKv cm s = some (.map vm))
    (hcv : lookupKv vm ver = some (.list xs)) :
    pyMerge FIELD_MAPPINGS true [(s, .map [(ver, .list ys)])] (.map cm)
      = .ok (.map (setKv cm s
          (.map (setKv vm ver (.list (xs ++ ys)))))) := by
  have hc1 : hasKv cm s = true := by simp [hasKv, hcs]
  have hc2 : hasKv vm ver = true := by simp [hasKv, hcv]
  simp [pyMerge, pyContains, exceptBindOk, hc1, hc2, pyGetItem, hcs, hcv,
    pySetItem]

/-- Reading the `calls` section off a callee transport that stores it under
the short code `C`. -/
theorem payloadGetPath_calls (ck : List (String × Val)) (v : Val)
    (hne : hasKv ck "calls" = false) (hv : lookupKv ck "C" = some v) :
    payloadGetPath (.map ck) "calls" = .ok v := by
  have hres : resolveGet FIELD_MAPPINGS (.map ck) "calls" = .ok "C" := by
    rw [resolveGet_map FIELD_MAPPINGS ck "calls" rfl fmNonEmpty, hne]
    rfl
  have hget : getParts FIELD_MAPPINGS (.map ck)
      (splitStr '/' "calls") = .ok v := by
    rw [show splitStr '/' "calls" = ["calls"] from rfl, getParts_cons_eq,
      hres]
    simp [exceptBindOk, pyGetItem, hv, getParts]
  unfold payloadGetPath getPath
  rw [hget]

/-- The complete `calls` merge of one iteration: the callee's single
service/version call list lands concatenated under the caller's `C` key. -/
theorem ldMerge_calls (a1 cm vm : List (String × Val)) (s ver : String)
    (xs ys : List Val) (hnc : hasKv a1 "calls" = false)
    (hC : lookupKv a1 "C" = some (.map cm))
    (hcs : lookupKv cm s = some (.map vm))
    (hcv : lookupKv vm ver = some (.list xs)) :
    ldMerge a1 FIELD_MAPPINGS "calls" (.map [(s, .map [(ver, .list ys)])])
      = .ok (setKv a1 "C" (.map (setKv cm s
          (.map (setKv vm ver (.list (xs ++ ys))))))) := by
  have hres : resolveGet FIELD_MAPPINGS (.map a1) "calls" = .ok "C" := by
    rw [resolveGet_map FIELD_MAPPINGS a1 "calls" rfl fmNonEmpty, hnc]
    rfl
  have hget : getParts FIELD_MAPPINGS (.map a1) ["calls"]
      = .ok (.map cm) := by
    rw [getParts_cons_eq, hres]
    simp [exceptBindOk, pyGetItem, hC, getParts]
  have hup : getUpdateParts FIELD_MAPPINGS
      (pyMerge FIELD_MAPPINGS true [(s, .map [(ver, .list ys)])])
      (.map a1) ["calls"]
      = .ok (.map (setKv a1 "C" (.map (setKv cm s
          (.map (setKv vm ver (.list (xs ++ ys)))))))) := by
    rw [getUpdateParts_cons_eq, hres]
    simp [exceptBindOk, pyGetItem, hC, getUpdateParts,
      pyMerge_calls cm vm s ver xs ys hcs hcv, pySetItem]
  have hred : ldMerge a1 FIELD_MAPPINGS "calls"
      (.map [(s, .map [(ver, .list ys)])])
      = (match getParts FIELD_MAPPINGS (.map a1)
          (splitStr '/' "calls") with
        | .ok (.map _) =>
            (match getUpdateParts FIELD_MAPPINGS
                (pyMerge FIELD_MAPPINGS true [(s, .map [(ver, .list ys)])])
                (.map a1) (splitStr '/' "calls") with
              | .ok (.map r') => .ok r'
              | .ok _ => .error .typeError
              | .error e => .error e)
        | .ok _ => .error .typeError
        | .error .keyError => do
            let d1 ← setParts FIELD_MAPPINGS a1 (splitStr '/' "calls")
              (.map [])
            let inner ← pyMerge FIELD_MAPPINGS true
              [(s, .map [(ver, .list ys)])] (.map [])
            setParts FIELD_MAPPINGS d1 (splitStr '/' "calls") inner
        | .error e => .error e) := rfl
  rw [hred, show splitStr '/' "calls" = ["calls"] from rfl, hget, hup]

/-- C2 (spec-modelled allow-list): after an immediate run-time call, the
merge-back loop over `TRANSPORT_MERGEABLE_PATHS` (data, relations, links,
calls, transactions, errors) touches only those sections: (i) the caller's
`meta` section - under its long name or its short code `m` - is never
merged regardless of the callee transport's content; (ii) a section that
reads back absent or empty (falsy) from the callee result is skipped
entirely, leaving the caller's entries for that section - long name and
short code - untouched, so no defaulted empty containers are written;
(iii) merging the `calls` section concatenates the callee's call list for
an overlapping service/version key onto the caller's without losing
entries from either side. -/
theorem c2_transport_merge_back (ck caller r : List (String × Val))
    (hr : callMergeBack (.map ck) caller = .ok r) :
    (lookupKv r "meta" = lookupKv caller "meta"
      ∧ lookupKv r "m" = lookupKv caller "m")
    ∧ (∀ p ∈ TRANSPORT_MERGEABLE_PATHS, ∀ v,
        payloadGetPath (.map ck) p = .ok v → pyTruthy v = false →
        lookupKv r p = lookupKv caller p
          ∧ lookupKv r (mget FIELD_MAPPINGS p)
            = lookupKv caller (mget FIELD_MAPPINGS p))
    ∧ (∀ (cm vm : List (String × Val)) (s ver : String) (xs ys : List Val),
        lookupKv caller "C" = some (.map cm) →
        hasKv caller "calls" = false →
        lookupKv cm s = some (.map vm) →
        lookupKv vm ver = some (.list xs) →
        lookupKv ck "C" = some (.map [(s, .map [(ver, .list ys)])]) →
        hasKv ck "calls" = false →
        lookupKv r "C" = some (.map (setKv cm s
          (.map (setKv vm ver (.list (xs ++ ys))))))) := by
  have hr' : TRANSPORT_MERGEABLE_PATHS.foldlM (mergeStep (.map ck)) caller
      = .ok r := hr
  have hsix : ∀ p ∈ TRANSPORT_MERGEABLE_PATHS,
      splitStr '/' p = [p] ∧ isBang p = false := by decide
  have hmetaAll : ∀ p ∈ TRANSPORT_MERGEABLE_PATHS,
      p ≠ "meta" ∧ mget FIELD_MAPPINGS p ≠ "meta"
        ∧ p ≠ "m" ∧ mget FIELD_MAPPINGS p ≠ "m" := by decide
  have hpair : ∀ p ∈ TRANSPORT_MERGEABLE_PATHS,
      ∀ p' ∈ TRANSPORT_MERGEABLE_PATHS,
      p = p' ∨ (p ≠ p' ∧ p ≠ mget FIELD_MAPPINGS p'
        ∧ mget FIELD_MAPPINGS p ≠ p'
        ∧ mget FIELD_MAPPINGS p ≠ mget FIELD_MAPPINGS p') := by decide
  refine ⟨⟨?_, ?_⟩, ?_, ?_⟩
  · refine foldMerge_lookup (.map ck) TRANSPORT_MERGEABLE_PATHS caller r
      "meta" (fun p hp => ⟨(hsix p hp).1, (hsix p hp).2, Or.inl
        ⟨Ne.symm (hmetaAll p hp).1, Ne.symm (hmetaAll p hp).2.1⟩⟩) hr'
  · refine foldMerge_lookup (.map ck) TRANSPORT_MERGEABLE_PATHS caller r
      "m" (fun p hp => ⟨(hsix p hp).1, (hsix p hp).2, Or.inl
        ⟨Ne.symm (hmetaAll p hp).2.2.1,
          Ne.symm (hmetaAll p hp).2.2.2⟩⟩) hr'
  · intro p hp v hv hf
    constructor
    · refine foldMerge_lookup (.map ck) TRANSPORT_MERGEABLE_PATHS caller r
        p (fun p' hp' => ⟨(hsix p' hp').1, (hsix p' hp').2, ?_⟩) hr'
      rcases hpair p hp p' hp' with he | hd
      · subst he
        exact Or.inr ⟨v, hv, hf⟩
      · exact Or.inl ⟨hd.1, hd.2.1⟩
    · refine foldMerge_lookup (.map ck) TRANSPORT_MERGEABLE_PATHS caller r
        (mget FIELD_MAPPINGS p)
        (fun p' hp' => ⟨(hsix p' hp').1, (hsix p' hp').2, ?_⟩) hr'
      rcases hpair p hp p' hp' with he | hd
      · subst he
        exact Or.inr ⟨v, hv, hf⟩
      · exact Or.inl ⟨hd.2.2.1, hd.2.2.2⟩
  · intro cm vm s ver xs ys hC hno hcs hcv hee hne
    have hr2 : ((["data", "relations", "links"] : List String)
        ++ "calls" :: ["transactions", "errors"]).foldlM
        (mergeStep (.map ck)) caller = .ok r := hr'
    obtain ⟨a1, hpre, hrest⟩ :=
      foldlM_append_ok (mergeStep (.map ck)) _ _ caller r hr2
    have hpresix : ∀ p ∈ (["data", "relations", "links"] : List String),
        splitStr '/' p = [p] ∧ isBang p = false
          ∧ ("C" ≠ p ∧ "C" ≠ mget FIELD_MAPPINGS p)
          ∧ ("calls" ≠ p ∧ "calls" ≠ mget FIELD_MAPPINGS p) := by decide
    have hpostsix : ∀ p ∈ (["transactions", "errors"] : List String),
        splitStr '/' p = [p] ∧ isBang p = false
          ∧ "C" ≠ p ∧ "C" ≠ mget FIELD_MAPPINGS p := by decide
    have ha1C : lookupKv a1 "C" = lookupKv caller "C" :=
      foldMerge_lookup (.map ck) _ caller a1 "C"
        (fun p hp => ⟨(hpresix p hp).1, (hpresix p hp).2.1,
          Or.inl (hpresix p hp).2.2.1⟩) hpre
    have ha1calls : lookupKv a1 "calls" = lookupKv caller "calls" :=
      foldMerge_lookup (.map ck) _ caller a1 "calls"
        (fun p hp => ⟨(hpresix p hp).1, (hpresix p hp).2.1,
          Or.inl (hpresix p hp).2.2.2⟩) hpre
    have hnc1 : hasKv a1 "calls" = false := by
      unfold hasKv at hno ⊢
      rw [ha1calls]
      exact hno
    have hC1 : lookupKv a1 "C" = some (.map cm) := by
      rw [ha1C]
      exact hC
    have hstep : mergeStep (.map ck) a1 "calls"
        = .ok (setKv a1 "C" (.map (setKv cm s
            (.map (setKv vm ver (.list (xs ++ ys))))))) := by
      unfold mergeStep
      rw [payloadGetPath_calls ck (.map [(s, .map [(ver, .list ys)])])
        hne hee]
      simp [exceptBindOk, pyTruthy,
        ldMerge_calls a1 cm vm s ver xs ys hnc1 hC1 hcs hcv]
    simp only [List.foldlM, hstep, exceptBindOk] at hrest
    have hpost : lookupKv r "C" = lookupKv (setKv a1 "C" (.map (setKv cm s
        (.map (setKv vm ver (.list (xs ++ ys))))))) "C" :=
      foldMerge_lookup (.map ck) _ _ r "C"
        (fun p hp => ⟨(hpostsix p hp).1, (hpostsix p hp).2.1,
          Or.inl ⟨(hpostsix p hp).2.2.1, (hpostsix p hp).2.2.2⟩⟩) hrest
    rw [hpost, lookupKv_setKv_self]

/-- Witness for C2: a caller holding one call entry for `svc:1.0` and a
callee transport returning one more; the merged transport keeps `meta`
untouched, preserves sections the callee reported empty, and concatenates
the two call lists. -/
theorem c2_transport_merge_back_witness :
    lookupKv [("C", Val.map [("svc", Val.map [("1.0",
          Val.list [Val.str "x", Val.str "y"])])]), ("m", Val.str "M")] "m"
        = lookupKv [("C", Val.map [("svc", Val.map [("1.0",
          Val.list [Val.str "x"])])]), ("m", Val.str "M")] "m"
      ∧ lookupKv [("C", Val.map [("svc", Val.map [("1.0",
          Val.list [Val.str "x", Val.str "y"])])]), ("m", Val.str "M")] "C"
        = some (.map (setKv [("svc", Val.map [("1.0",
            Val.list [Val.str "x"])])] "svc"
          (.map (setKv [("1.0", Val.list [Val.str "x"])] "1.0"
            (.list ([Val.str "x"] ++ [Val.str "y"])))))) :=
  ⟨(c2_transport_merge_back
      [("C", Val.map [("svc", Val.map [("1.0", Val.list [Val.str "y"])])])]
      [("C", Val.map [("svc", Val.map [("1.0", Val.list [Val.str "x"])])]),
        ("m", Val.str "M")]
      [("C", Val.map [("svc", Val.map [("1.0",
        Val.list [Val.str "x", Val.str "y"])])]), ("m", Val.str "M")]
      rfl).1.2,
    (c2_transport_merge_back
      [("C", Val.map [("svc", Val.map [("1.0", Val.list [Val.str "y"])])])]
      [("C", Val.map [("svc", Val.map [("1.0", Val.list [Val.str "x"])])]),
        ("m", Val.str "M")]
      [("C", Val.map [("svc", Val.map [("1.0",
        Val.list [Val.str "x", Val.str "y"])])]), ("m", Val.str "M")]
      rfl).2.2
      [("svc", Val.map [("1.0", Val.list [Val.str "x"])])]
      [("1.0", Val.list [Val.str "x"])] "svc" "1.0"
      [Val.str "x"] [Val.str "y"] rfl rfl rfl rfl rfl rfl⟩

end Katana
